import Mathlib

/-!
Verification of the token-derivation and webhook-verification core of the
vortex-rust-sdk repository, as a shallow embedding in Lean 4.

Modelling conventions:
  - Rust byte slices (`&[u8]`, `Vec<u8>`) are `List Nat` with every element
    below 256 where it matters; Rust strings are `List Char` of Unicode
    scalar values, and `String::as_bytes` is the executable `utf8Encode`.
  - `serde_json::Value` is the `Json` inductive below.  JSON objects are
    insertion-ordered association lists (the spec's concrete scenarios fix
    the serialized field order to insertion order, so the build is modelled
    with order-preserving maps); JSON numbers are modelled as exact
    integers — floating-point literals are outside the model.
  - HMAC-SHA256 is implemented executably from the FIPS 180-4 / RFC 2104
    algorithms that the `sha2` and `hmac` crates realize.
  - Fallible Rust paths return `Except`/`Option`; wall-clock time is an
    explicit `now : Nat` parameter.
-/

/-- Characters of a string literal, the text representation used throughout. -/
def lc (s : String) : List Char := s.data

/-! ## UTF-8 encoding and decoding (`str::as_bytes` and `std::str::from_utf8`) -/

/-- UTF-8 bytes of one Unicode scalar value. -/
def utf8Ch (c : Char) : List Nat :=
  let n := c.toNat
  if n < 128 then [n]
  else if n < 2048 then [192 + n / 64, 128 + n % 64]
  else if n < 65536 then [224 + n / 4096, 128 + n / 64 % 64, 128 + n % 64]
  else [240 + n / 262144, 128 + n / 4096 % 64, 128 + n / 64 % 64, 128 + n % 64]

/-- UTF-8 encoding of a text (Rust `as_bytes`). -/
def utf8Encode (cs : List Char) : List Nat := cs.flatMap utf8Ch

mutual
/-- UTF-8 decoding with validity checks (shortest form, scalar range, no
surrogates), mirroring `std::str::from_utf8`; the lead byte selects how
many continuation bytes the helpers consume. -/
def utf8Decode : List Nat → Option (List Char)
  | [] => some []
  | b :: rest =>
    if b < 128 then (utf8Decode rest).map (fun cs => Char.ofNat b :: cs)
    else if b < 194 then none
    else if b < 224 then utf8Tail2 b rest
    else if b < 240 then utf8Tail3 b rest
    else if b < 245 then utf8Tail4 b rest
    else none

/-- One continuation byte of a two-byte UTF-8 sequence. -/
def utf8Tail2 (b : Nat) : List Nat → Option (List Char)
  | b2 :: r2 =>
      if 128 ≤ b2 ∧ b2 < 192 then
        (utf8Decode r2).map (fun cs => Char.ofNat ((b - 192) * 64 + (b2 - 128)) :: cs)
      else none
  | [] => none

/-- Two continuation bytes of a three-byte UTF-8 sequence. -/
def utf8Tail3 (b : Nat) : List Nat → Option (List Char)
  | b2 :: b3 :: r3 =>
      if 128 ≤ b2 ∧ b2 < 192 ∧ 128 ≤ b3 ∧ b3 < 192 then
        let n := (b - 224) * 4096 + (b2 - 128) * 64 + (b3 - 128)
        if 2048 ≤ n ∧ (n < 55296 ∨ 57344 ≤ n) then
          (utf8Decode r3).map (fun cs => Char.ofNat n :: cs)
        else none
      else none
  | _ => none

/-- Three continuation bytes of a four-byte UTF-8 sequence. -/
def utf8Tail4 (b : Nat) : List Nat → Option (List Char)
  | b2 :: b3 :: b4 :: r4 =>
      if 128 ≤ b2 ∧ b2 < 192 ∧ 128 ≤ b3 ∧ b3 < 192 ∧ 128 ≤ b4 ∧ b4 < 192 then
        let n := (b - 240) * 262144 + (b2 - 128) * 4096 + (b3 - 128) * 64 + (b4 - 128)
        if 65536 ≤ n ∧ n < 1114112 then
          (utf8Decode r4).map (fun cs => Char.ofNat n :: cs)
        else none
      else none
  | _ => none
end

/-! ## Lowercase hexadecimal rendering (`format!("{:02x}", b)`) -/

/-- The lowercase hexadecimal digit for `d < 16`. -/
def hexDigit (d : Nat) : Char :=
  if d < 10 then Char.ofNat (48 + d) else Char.ofNat (87 + d)

/-- Two lowercase hex digits of one byte. -/
def hexPair (b : Nat) : List Char := [hexDigit (b / 16 % 16), hexDigit (b % 16)]

/-- Lowercase hex rendering of a byte string (`hex_encode` in webhooks.rs). -/
def hex_encode (bs : List Nat) : List Char := bs.flatMap hexPair

/-! ## Base64url without padding (`base64::engine::general_purpose::URL_SAFE_NO_PAD`) -/

/-- The base64url alphabet character for a 6-bit value. -/
def b64Char (n : Nat) : Char :=
  (lc "ABCDEFGHIJKLMNOPQRSTUVWXYZabcdefghijklmnopqrstuvwxyz0123456789-_").getD n 'A'

/-- Index of a character in the base64url alphabet, `none` when absent
(also for `=`, which the no-padding decoder rejects). -/
def b64Val (c : Char) : Option Nat :=
  if 65 ≤ c.toNat ∧ c.toNat ≤ 90 then some (c.toNat - 65)
  else if 97 ≤ c.toNat ∧ c.toNat ≤ 122 then some (c.toNat - 97 + 26)
  else if 48 ≤ c.toNat ∧ c.toNat ≤ 57 then some (c.toNat - 48 + 52)
  else if c = '-' then some 62
  else if c = '_' then some 63
  else none

/-- Base64url encoding, no padding. -/
def encB64 : List Nat → List Char
  | [] => []
  | [b1] => [b64Char (b1 / 4), b64Char (b1 % 4 * 16)]
  | [b1, b2] => [b64Char (b1 / 4), b64Char (b1 % 4 * 16 + b2 / 16), b64Char (b2 % 16 * 4)]
  | b1 :: b2 :: b3 :: rest =>
      b64Char (b1 / 4) :: b64Char (b1 % 4 * 16 + b2 / 16) ::
        b64Char (b2 % 16 * 4 + b3 / 64) :: b64Char (b3 % 64) :: encB64 rest

/-- Base64url decoding, no padding: rejects characters outside the alphabet
(including `=`), a length of 1 mod 4, and nonzero trailing bits, as the
`base64` crate's strict `URL_SAFE_NO_PAD` engine does. -/
def decB64 : List Char → Option (List Nat)
  | [] => some []
  | [_] => none
  | [c1, c2] => do
      let v1 ← b64Val c1
      let v2 ← b64Val c2
      if v2 % 16 = 0 then some [v1 * 4 + v2 / 16] else none
  | [c1, c2, c3] => do
      let v1 ← b64Val c1
      let v2 ← b64Val c2
      let v3 ← b64Val c3
      if v3 % 4 = 0 then some [v1 * 4 + v2 / 16, v2 % 16 * 16 + v3 / 4] else none
  | c1 :: c2 :: c3 :: c4 :: rest => do
      let v1 ← b64Val c1
      let v2 ← b64Val c2
      let v3 ← b64Val c3
      let v4 ← b64Val c4
      let tail ← decB64 rest
      some ((v1 * 4 + v2 / 16) :: (v2 % 16 * 16 + v3 / 4) :: (v3 % 4 * 64 + v4) :: tail)

/-! ## Canonical UUID text (`uuid::Uuid::to_string`) -/

/-- Canonical hyphenated lowercase UUID text of 16 bytes (8-4-4-4-12 hex). -/
def uuidStr (bs : List Nat) : List Char :=
  hex_encode (bs.take 4) ++ '-' ::
    (hex_encode ((bs.drop 4).take 2) ++ '-' ::
      (hex_encode ((bs.drop 6).take 2) ++ '-' ::
        (hex_encode ((bs.drop 8).take 2) ++ '-' :: hex_encode (bs.drop 10))))

/-! ## SHA-256 (FIPS 180-4), executable, over byte lists -/

/-- Truncation to a 32-bit word. -/
def w32 (x : Nat) : Nat := x % 4294967296

/-- Right rotation of a 32-bit word. -/
def rotr32 (n x : Nat) : Nat := ((x >>> n) ||| (x <<< (32 - n))) % 4294967296

/-- SHA-256 choice function. -/
def shaCh (x y z : Nat) : Nat := (x &&& y) ^^^ ((x ^^^ 4294967295) &&& z)

/-- SHA-256 majority function. -/
def shaMaj (x y z : Nat) : Nat := (x &&& y) ^^^ (x &&& z) ^^^ (y &&& z)

/-- SHA-256 big sigma 0. -/
def bigSig0 (x : Nat) : Nat := rotr32 2 x ^^^ rotr32 13 x ^^^ rotr32 22 x

/-- SHA-256 big sigma 1. -/
def bigSig1 (x : Nat) : Nat := rotr32 6 x ^^^ rotr32 11 x ^^^ rotr32 25 x

/-- SHA-256 small sigma 0. -/
def smallSig0 (x : Nat) : Nat := rotr32 7 x ^^^ rotr32 18 x ^^^ (x >>> 3)

/-- SHA-256 small sigma 1. -/
def smallSig1 (x : Nat) : Nat := rotr32 17 x ^^^ rotr32 19 x ^^^ (x >>> 10)

/-- The 64 SHA-256 round constants. -/
def sha256K : List Nat :=
  [1116352408, 1899447441, 3049323471, 3921009573, 961987163, 1508970993,
   2453635748, 2870763221, 3624381080, 310598401, 607225278, 1426881987,
   1925078388, 2162078206, 2614888103, 3248222580, 3835390401, 4022224774,
   264347078, 604807628, 770255983, 1249150122, 1555081692, 1996064986,
   2554220882, 2821834349, 2952996808, 3210313671, 3336571891, 3584528711,
   113926993, 338241895, 666307205, 773529912, 1294757372, 1396182291,
   1695183700, 1986661051, 2177026350, 2456956037, 2730485921, 2820302411,
   3259730800, 3345764771, 3516065817, 3600352804, 4094571909, 275423344,
   430227734, 506948616, 659060556, 883997877, 958139571, 1322822218,
   1537002063, 1747873779, 1955562222, 2024104815, 2227730452, 2361852424,
   2428436474, 2756734187, 3204031479, 3329325298]

/-- The initial SHA-256 state. -/
def sha256H0 : List Nat :=
  [1779033703, 3144134277, 1013904242, 2773480762,
   1359893119, 2600822924, 528734635, 1541459225]

/-- Big-endian 8-byte rendering of a length in bits. -/
def be64 (n : Nat) : List Nat :=
  [n / 72057594037927936 % 256, n / 281474976710656 % 256, n / 1099511627776 % 256,
   n / 4294967296 % 256, n / 16777216 % 256, n / 65536 % 256, n / 256 % 256, n % 256]

/-- Big-endian 4-byte rendering of a 32-bit word. -/
def be32 (n : Nat) : List Nat := [n / 16777216 % 256, n / 65536 % 256, n / 256 % 256, n % 256]

/-- SHA-256 message padding: `0x80`, zeros to 56 mod 64, then the bit length. -/
def shaPad (msg : List Nat) : List Nat :=
  msg ++ 128 :: List.replicate ((119 - msg.length % 64) % 64) 0 ++ be64 (8 * msg.length)

/-- Split a byte list into 64-byte blocks. -/
def chunk64 : List Nat → List (List Nat)
  | [] => []
  | b :: rest => (b :: rest).take 64 :: chunk64 ((b :: rest).drop 64)
termination_by l => l.length
decreasing_by simp; omega

/-- Big-endian 32-bit words of a block. -/
def toWords : List Nat → List Nat
  | b1 :: b2 :: b3 :: b4 :: rest => (((b1 * 256 + b2) * 256 + b3) * 256 + b4) :: toWords rest
  | _ => []

/-- Message-schedule extension; `acc` holds the words produced so far, most
recent first. -/
def schedExtend : Nat → List Nat → List Nat
  | 0, acc => acc.reverse
  | n + 1, acc =>
      schedExtend n
        (w32 (smallSig1 (acc.getD 1 0) + acc.getD 6 0 + smallSig0 (acc.getD 14 0) + acc.getD 15 0)
          :: acc)

/-- One SHA-256 round on the 8-word working state. -/
def compressStep (st : List Nat) (kw : Nat × Nat) : List Nat :=
  let a := st.getD 0 0
  let b := st.getD 1 0
  let c := st.getD 2 0
  let d := st.getD 3 0
  let e := st.getD 4 0
  let f := st.getD 5 0
  let g := st.getD 6 0
  let h := st.getD 7 0
  let t1 := w32 (h + bigSig1 e + shaCh e f g + kw.1 + kw.2)
  let t2 := w32 (bigSig0 a + shaMaj a b c)
  [w32 (t1 + t2), a, b, c, w32 (d + t1), e, f, g]

/-- SHA-256 compression of one 64-byte block into the chaining state. -/
def compressBlock (st : List Nat) (block : List Nat) : List Nat :=
  let ws := schedExtend 48 (toWords block).reverse
  let fin := (sha256K.zip ws).foldl compressStep st
  (st.zip fin).map (fun p => w32 (p.1 + p.2))

/-- SHA-256 digest (32 bytes) of a byte string. -/
def sha256 (msg : List Nat) : List Nat :=
  ((chunk64 (shaPad msg)).foldl compressBlock sha256H0).flatMap be32

/-! ## HMAC-SHA256 (RFC 2104), as realized by the `hmac` crate -/

/-- HMAC-SHA256 of a message under a key of any length (a longer-than-block
key is first hashed; `Hmac::<Sha256>::new_from_slice` accepts every length,
including zero). -/
def hmacSha256 (key msg : List Nat) : List Nat :=
  let k0 := if 64 < key.length then sha256 key else key
  let kp := k0 ++ List.replicate (64 - k0.length) 0
  sha256 (kp.map (fun b => b ^^^ 92) ++ sha256 (kp.map (fun b => b ^^^ 54) ++ msg))

/-! ## JSON values (`serde_json::Value`) -/

/-- A JSON value.  Objects are insertion-ordered association lists; numbers
are exact integers (floating-point literals are outside the model). -/
inductive Json where
  | null
  | bool (b : Bool)
  | num (n : Int)
  | str (s : List Char)
  | arr (es : List Json)
  | obj (ms : List (List Char × Json))
deriving Repr

/-- Left brace character. -/
def lbrace : Char := Char.ofNat 123

/-- Right brace character. -/
def rbrace : Char := Char.ofNat 125

/-- Decimal digit character for `d < 10`. -/
def digitCh (d : Nat) : Char := Char.ofNat (48 + d)

/-- Decimal digits of a natural number, most significant first, in front of
`acc`. -/
def natChA : Nat → List Char → List Char
  | n, acc =>
    if n < 10 then digitCh n :: acc
    else natChA (n / 10) (digitCh (n % 10) :: acc)
termination_by n => n
decreasing_by omega

/-- Decimal digits of a natural number, most significant first. -/
def natCh (n : Nat) : List Char := natChA n []

/-- Decimal rendering of an integer, as `serde_json` prints integral numbers. -/
def intCh (i : Int) : List Char :=
  if i < 0 then '-' :: natCh i.natAbs else natCh i.natAbs

/-- JSON escape of one character, exactly as `serde_json` emits it: the two
quoting characters, the five short control escapes, `\u00xx` for the other
control characters, everything else verbatim. -/
def escCh (c : Char) : List Char :=
  if c = '"' then ['\\', '"']
  else if c = '\\' then ['\\', '\\']
  else if c.toNat = 8 then ['\\', 'b']
  else if c.toNat = 9 then ['\\', 't']
  else if c.toNat = 10 then ['\\', 'n']
  else if c.toNat = 12 then ['\\', 'f']
  else if c.toNat = 13 then ['\\', 'r']
  else if c.toNat < 32 then
    ['\\', 'u', '0', '0', hexDigit (c.toNat / 16), hexDigit (c.toNat % 16)]
  else [c]

/-- Serialized JSON string: quoted, escaped body. -/
def serStr (s : List Char) : List Char := '"' :: (s.flatMap escCh ++ ['"'])

mutual
/-- Compact serialization of a JSON value (`serde_json::to_vec`, which emits
no whitespace). -/
def serJ : Json → List Char
  | .null => lc "null"
  | .bool true => lc "true"
  | .bool false => lc "false"
  | .num n => intCh n
  | .str s => serStr s
  | .arr es => '[' :: (serItems es ++ [']'])
  | .obj ms => lbrace :: (serFields ms ++ [rbrace])

/-- Comma-separated serialization of array elements. -/
def serItems : List Json → List Char
  | [] => []
  | [e] => serJ e
  | e :: e2 :: rest => serJ e ++ ',' :: serItems (e2 :: rest)

/-- Comma-separated serialization of object members. -/
def serFields : List (List Char × Json) → List Char
  | [] => []
  | [(k, v)] => serStr k ++ ':' :: serJ v
  | (k, v) :: f :: rest => serStr k ++ ':' :: serJ v ++ ',' :: serFields (f :: rest)
end

/-- JSON insignificant whitespace. -/
def jWs (c : Char) : Bool := c = ' ' ∨ c = '\t' ∨ c = '\n' ∨ c = '\r'

/-- Drop leading JSON whitespace. -/
def dropWs : List Char → List Char
  | c :: rest => if jWs c then dropWs rest else c :: rest
  | [] => []

/-- Is this a decimal digit character? -/
def isDig (c : Char) : Bool := 48 ≤ c.toNat ∧ c.toNat ≤ 57

/-- Longest leading digit run and the remainder. -/
def digSpan : List Char → List Char × List Char
  | c :: rest =>
      if isDig c then
        let p := digSpan rest
        (c :: p.1, p.2)
      else ([], c :: rest)
  | [] => ([], [])

/-- Numeric value of a digit run. -/
def digVal (ds : List Char) : Nat := ds.foldl (fun acc c => acc * 10 + (c.toNat - 48)) 0

/-- Value of a hexadecimal digit character, either case. -/
def hexVal (c : Char) : Option Nat :=
  if 48 ≤ c.toNat ∧ c.toNat ≤ 57 then some (c.toNat - 48)
  else if 97 ≤ c.toNat ∧ c.toNat ≤ 102 then some (c.toNat - 87)
  else if 65 ≤ c.toNat ∧ c.toNat ≤ 70 then some (c.toNat - 55)
  else none

/-- Unescape table for the short escapes after a backslash. -/
def unescCh (e : Char) : Option Char :=
  if e = '"' then some '"'
  else if e = '\\' then some '\\'
  else if e = '/' then some '/'
  else if e = 'b' then some (Char.ofNat 8)
  else if e = 'f' then some (Char.ofNat 12)
  else if e = 'n' then some '\n'
  else if e = 'r' then some '\r'
  else if e = 't' then some '\t'
  else none

mutual
/-- Body of a JSON string after the opening quote: unescapes the short
escapes and `\uXXXX` (combining surrogate pairs), rejects unescaped
control characters, and stops at the closing quote. -/
def parseStrBody (acc : List Char) : List Char → Option (List Char × List Char)
  | [] => none
  | c :: rest =>
    if c = '"' then some (acc.reverse, rest)
    else if c = '\\' then parseEscSeq acc rest
    else if c.toNat < 32 then none
    else parseStrBody (c :: acc) rest

/-- The escape sequence after a backslash. -/
def parseEscSeq (acc : List Char) : List Char → Option (List Char × List Char)
  | [] => none
  | e :: r1 =>
    if e = 'u' then parseHexEsc acc r1
    else
      match unescCh e with
      | some u => parseStrBody (u :: acc) r1
      | none => none

/-- The four hex digits of a `\uXXXX` escape; a high surrogate defers to
the paired low surrogate. -/
def parseHexEsc (acc : List Char) : List Char → Option (List Char × List Char)
  | h1 :: h2 :: h3 :: h4 :: r2 => do
      let v1 ← hexVal h1
      let v2 ← hexVal h2
      let v3 ← hexVal h3
      let v4 ← hexVal h4
      let n := ((v1 * 16 + v2) * 16 + v3) * 16 + v4
      if n < 55296 ∨ 57344 ≤ n then parseStrBody (Char.ofNat n :: acc) r2
      else if n < 56320 then parseLowSur acc n r2
      else none
  | _ => none

/-- The `\uXXXX` low surrogate completing a surrogate pair of value `n`. -/
def parseLowSur (acc : List Char) (n : Nat) : List Char → Option (List Char × List Char)
  | b1 :: b2 :: g1 :: g2 :: g3 :: g4 :: r3 =>
      if b1 = '\\' ∧ b2 = 'u' then do
        let u1 ← hexVal g1
        let u2 ← hexVal g2
        let u3 ← hexVal g3
        let u4 ← hexVal g4
        let m := ((u1 * 16 + u2) * 16 + u3) * 16 + u4
        if 56320 ≤ m ∧ m < 57344 then
          parseStrBody (Char.ofNat (65536 + (n - 55296) * 1024 + (m - 56320)) :: acc) r3
        else none
      else none
  | _ => none
end

/-- Does the input start with a minus sign? -/
def negSign : List Char → Bool
  | c0 :: _ => c0 = '-'
  | [] => false

/-- Would the remainder extend the number with a fraction or exponent? -/
def numExt : List Char → Bool
  | c :: _ => c = '.' ∨ c = 'e' ∨ c = 'E'
  | [] => false

/-- A JSON number token, restricted to the integer grammar: optional
minus, then digits with no redundant leading zero; a fraction or exponent
makes the parse fail (floating point is outside the model). -/
def parseIntTok (cs : List Char) : Option (Int × List Char) :=
  let neg := negSign cs
  let cs1 := if neg then cs.drop 1 else cs
  match digSpan cs1 with
  | ([], _) => none
  | (d :: ds, rest) =>
      if d = '0' ∧ ds ≠ [] then none
      else if numExt rest then none
      else
        let m : Int := Int.ofNat (digVal (d :: ds))
        some (if neg then -m else m, rest)

mutual
/-- Fuel-indexed recursive-descent parse of one JSON value, modelling
`serde_json`'s grammar (minus floating-point numbers). -/
def parseV : Nat → List Char → Option (Json × List Char)
  | 0, _ => none
  | fuel + 1, cs =>
    match dropWs cs with
    | [] => none
    | c :: r =>
      if c = '-' ∨ isDig c then (parseIntTok (c :: r)).map (fun p => (.num p.1, p.2))
      else if c = '"' then (parseStrBody [] r).map (fun p => (.str p.1, p.2))
      else if c = '[' then
        match dropWs r with
        | [] => none
        | d :: r2 =>
            if d = ']' then some (.arr [], r2)
            else (parseItems fuel (d :: r2)).map (fun p => (.arr p.1, p.2))
      else if c = lbrace then
        match dropWs r with
        | [] => none
        | d :: r2 =>
            if d = rbrace then some (.obj [], r2)
            else (parseFields fuel (d :: r2)).map (fun p => (.obj p.1, p.2))
      else
        match c :: r with
        | 'n' :: 'u' :: 'l' :: 'l' :: r2 => some (.null, r2)
        | 't' :: 'r' :: 'u' :: 'e' :: r2 => some (.bool true, r2)
        | 'f' :: 'a' :: 'l' :: 's' :: 'e' :: r2 => some (.bool false, r2)
        | _ => none

/-- One or more comma-separated array elements and the closing bracket. -/
def parseItems : Nat → List Char → Option (List Json × List Char)
  | 0, _ => none
  | fuel + 1, cs => do
      let (v, r) ← parseV fuel cs
      match dropWs r with
      | [] => none
      | c :: r2 =>
          if c = ',' then (parseItems fuel r2).map (fun p => (v :: p.1, p.2))
          else if c = ']' then some ([v], r2)
          else none

/-- One or more comma-separated object members and the closing brace. -/
def parseFields : Nat → List Char → Option (List (List Char × Json) × List Char)
  | 0, _ => none
  | fuel + 1, cs =>
    match dropWs cs with
    | [] => none
    | c :: r =>
      if c = '"' then do
        let (k, r1) ← parseStrBody [] r
        match dropWs r1 with
        | [] => none
        | c2 :: r2 =>
          if c2 = ':' then do
            let (v, r3) ← parseV fuel r2
            match dropWs r3 with
            | [] => none
            | c3 :: r4 =>
              if c3 = ',' then (parseFields fuel r4).map (fun p => ((k, v) :: p.1, p.2))
              else if c3 = rbrace then some ([(k, v)], r4)
              else none
          else none
      else none
end

/-- A remainder that cannot extend a rendered number: empty, or headed by
a character that is no digit and none of `.`, `e`, `E` — every JSON
delimiter qualifies. -/
def numStop : List Char → Prop
  | [] => True
  | c :: _ => isDig c = false ∧ c ≠ '.' ∧ c ≠ 'e' ∧ c ≠ 'E'

/-- Parse a complete JSON document: one value, then only trailing
whitespace, as `serde_json::from_slice` requires. -/
def parseDoc (cs : List Char) : Option Json :=
  match parseV (cs.length + 1) cs with
  | some (j, r) => if dropWs r = [] then some j else none
  | none => none

/-! ## SDK error type (src/error.rs)

The enum in `error.rs` plus the `WebhookSignatureError` variant that
`webhooks.rs` constructs.  Modelled from the spec: the
`WebhookSignatureVerificationFailed`-class error the webhook verifier
returns is declared by its uses in `webhooks.rs`; the variant itself is not
in the `error.rs` under `src/`. -/
inductive VortexError where
  | InvalidApiKey (msg : List Char)
  | CryptoError (msg : List Char)
  | HttpError (msg : List Char)
  | ApiError (msg : List Char)
  | SerializationError (msg : List Char)
  | InvalidRequest (msg : List Char)
  | WebhookSignatureError (msg : List Char)
deriving Repr, DecidableEq

/-! ## JWT generation (src/client.rs, `VortexClient::generate_jwt`) -/

/-- User type for JWT generation (src/types.rs).  The
`allowedEmailDomains` field is modelled from the spec: `generate_jwt` in
`client.rs` reads `user.allowed_email_domains` ("optional allow-listed
domains"), but the `User` declaration under `src/` lacks the field. -/
structure User where
  id : List Char
  email : List Char
  userName : Option (List Char)
  userAvatarUrl : Option (List Char)
  adminScopes : Option (List (List Char))
  allowedEmailDomains : Option (List (List Char))
deriving Repr, DecidableEq

/-- Split a text at every dot, keeping empty segments, as Rust
`str::split('.').collect()` does; `go` carries the current segment
reversed. -/
def splitDotGo (cur : List Char) : List Char → List (List Char)
  | [] => [cur.reverse]
  | c :: rest =>
      if c = '.' then cur.reverse :: splitDotGo [] rest
      else splitDotGo (c :: cur) rest

/-- Split a text at every dot, keeping empty segments. -/
def splitDot (cs : List Char) : List (List Char) := splitDotGo [] cs

/-- The key-parsing stage of `generate_jwt` (client.rs lines 100-129):
split on `.`, require exactly three segments, require the literal `VRTX`
tag, base64url-decode the id segment, require exactly 16 bytes, and yield
the canonical UUID text together with the secret segment's bytes.
(`Uuid::from_slice` cannot fail on a 16-byte slice, so its defensive error
branch has no counterpart.) -/
def parseApiKey (apiKey : List Char) : Except VortexError (List Char × List Nat) :=
  match splitDot apiKey with
  | [seg0, encodedId, key] =>
      if seg0 ≠ lc "VRTX" then .error (.InvalidApiKey (lc "Invalid API key prefix"))
      else
        match decB64 encodedId with
        | none => .error (.InvalidApiKey (lc "Failed to decode ID"))
        | some idBytes =>
            if idBytes.length ≠ 16 then .error (.InvalidApiKey (lc "ID must be 16 bytes"))
            else .ok (uuidStr idBytes, utf8Encode key)
  | _ => .error (.InvalidApiKey (lc "Invalid API key format"))

/-- Insert-or-update on an insertion-ordered JSON object, the semantics of
`payload_json[key] = value` on a `serde_json` object (replace in place,
else append). -/
def objSet (ms : List (List Char × Json)) (k : List Char) (v : Json) : List (List Char × Json) :=
  match ms with
  | [] => [(k, v)]
  | (k2, v2) :: rest => if k2 = k then (k2, v) :: rest else (k2, v2) :: objSet rest k v

/-- First value stored under a key of a JSON object. -/
def objGet (ms : List (List Char × Json)) (k : List Char) : Option Json :=
  match ms with
  | [] => none
  | (k2, v) :: rest => if k2 = k then some v else objGet rest k

/-- The JWT header object of `generate_jwt`: `iat`, `alg`, `typ`, `kid`, in
that order. -/
def jwtHeader (now : Nat) (uuidText : List Char) : Json :=
  .obj [(lc "iat", .num now), (lc "alg", .str (lc "HS256")),
        (lc "typ", .str (lc "JWT")), (lc "kid", .str uuidText)]

/-- The seeded payload of `generate_jwt`: `userId`, `userEmail`,
`expires`. -/
def jwtSeed (user : User) (expires : Nat) : List (List Char × Json) :=
  [(lc "userId", .str user.id), (lc "userEmail", .str user.email),
   (lc "expires", .num expires)]

/-- The payload of `generate_jwt` before the extension entries
(client.rs lines 152-178): seed, then the optional fields in source order,
the domain list only when nonempty. -/
def jwtStandard (user : User) (now : Nat) : List (List Char × Json) :=
  let p0 := jwtSeed user (now + 3600)
  let p1 := match user.userName with
    | some n => objSet p0 (lc "userName") (.str n)
    | none => p0
  let p2 := match user.userAvatarUrl with
    | some a => objSet p1 (lc "userAvatarUrl") (.str a)
    | none => p1
  let p3 := match user.adminScopes with
    | some sc => objSet p2 (lc "adminScopes") (.arr (sc.map .str))
    | none => p2
  match user.allowedEmailDomains with
  | some ds => if ds = [] then p3 else objSet p3 (lc "allowedEmailDomains") (.arr (ds.map .str))
  | none => p3

/-- The JWT payload object of `generate_jwt` (client.rs lines 152-185):
the standard fields, then every extension entry written, in order, last. -/
def jwtPayload (user : User) (now : Nat) (extra : List (List Char × Json)) :
    List (List Char × Json) :=
  extra.foldl (fun o kv => objSet o kv.1 kv.2) (jwtStandard user now)

/-- The value the last extension entry with a given key writes, if any. -/
def lastAssoc (extra : List (List Char × Json)) (k : List Char) : Option Json :=
  ((extra.filter (fun kv => kv.1 == k)).getLast?).map (fun kv => kv.2)

/-- The base64url-encoded header segment of the token. -/
def headerSeg (now : Nat) (uuidText : List Char) : List Char :=
  encB64 (utf8Encode (serJ (jwtHeader now uuidText)))

/-- The base64url-encoded payload segment of the token. -/
def payloadSeg (user : User) (now : Nat) (extra : List (List Char × Json)) : List Char :=
  encB64 (utf8Encode (serJ (.obj (jwtPayload user now extra))))

/-- `VortexClient::generate_jwt` (client.rs lines 95-200): parse the key,
derive the signing key as HMAC-SHA256 of the UUID text under the secret,
build and encode header and payload, sign `header.payload`, and return the
three-part token.  The wall clock read is the explicit `now`.  The two
`CryptoError` branches guard `new_from_slice`, which accepts every key
length, so they have no failing counterpart here. -/
def generateJwt (apiKey : List Char) (user : User) (extra : List (List Char × Json))
    (now : Nat) : Except VortexError (List Char) :=
  match parseApiKey apiKey with
  | .error e => .error e
  | .ok (uuidText, keyBytes) =>
      let signingKey := hmacSha256 keyBytes (utf8Encode uuidText)
      let headerB64 := headerSeg now uuidText
      let payloadB64 := payloadSeg user now extra
      let toSign := headerB64 ++ '.' :: payloadB64
      let signature := hmacSha256 signingKey (utf8Encode toSign)
      .ok (toSign ++ '.' :: encB64 signature)

/-! ## Webhook event types (src/webhook_types.rs) and their `serde`
deserialization -/

/-- A server state-change webhook event (`VortexWebhookEvent`).  The
`data` map is the JSON object as an ordered association list. -/
structure VortexWebhookEvent where
  id : List Char
  event_type : List Char
  timestamp : List Char
  account_id : List Char
  environment_id : Option (List Char)
  source_table : List Char
  operation : List Char
  data : List (List Char × Json)
deriving Repr

/-- A client analytics event (`VortexAnalyticsEvent`). -/
structure VortexAnalyticsEvent where
  id : List Char
  name : List Char
  account_id : List Char
  organization_id : List Char
  project_id : List Char
  environment_id : List Char
  deployment_id : Option (List Char)
  widget_configuration_id : Option (List Char)
  foreign_user_id : Option (List Char)
  session_id : Option (List Char)
  payload : Option (List (List Char × Json))
  platform : Option (List Char)
  segmentation : Option (List Char)
  timestamp : List Char
deriving Repr

/-- The untagged union `VortexEvent`. -/
inductive VortexEvent where
  | Webhook (e : VortexWebhookEvent)
  | Analytics (e : VortexAnalyticsEvent)
deriving Repr

/-- A required `String` field: present and a JSON string. -/
def reqStrF (ms : List (List Char × Json)) (k : String) : Option (List Char) :=
  match objGet ms (lc k) with
  | some (.str s) => some s
  | _ => none

/-- An optional `Option<String>` field: absent or null give `none`; a
string gives `some`; any other shape is a type error. -/
def optStrF (ms : List (List Char × Json)) (k : String) : Option (Option (List Char)) :=
  match objGet ms (lc k) with
  | none => some none
  | some .null => some none
  | some (.str s) => some (some s)
  | some _ => none

/-- A required `HashMap<String, Value>` field: present and a JSON object. -/
def reqMapF (ms : List (List Char × Json)) (k : String) : Option (List (List Char × Json)) :=
  match objGet ms (lc k) with
  | some (.obj m) => some m
  | _ => none

/-- An optional `Option<HashMap<String, Value>>` field. -/
def optMapF (ms : List (List Char × Json)) (k : String) :
    Option (Option (List (List Char × Json))) :=
  match objGet ms (lc k) with
  | none => some none
  | some .null => some none
  | some (.obj m) => some (some m)
  | some _ => none

/-- Deserialization of `VortexWebhookEvent` from a JSON value, per the
serde derive with `rename_all = "camelCase"` and `rename = "type"`:
required string fields, one optional string, a required object map,
unknown keys ignored. -/
def webhookEventFromJson (j : Json) : Option VortexWebhookEvent :=
  match j with
  | .obj ms => do
      let id ← reqStrF ms "id"
      let ty ← reqStrF ms "type"
      let ts ← reqStrF ms "timestamp"
      let acc ← reqStrF ms "accountId"
      let env ← optStrF ms "environmentId"
      let st ← reqStrF ms "sourceTable"
      let op ← reqStrF ms "operation"
      let dt ← reqMapF ms "data"
      some ⟨id, ty, ts, acc, env, st, op, dt⟩
  | _ => none

/-- Deserialization of `VortexAnalyticsEvent` from a JSON value, per the
serde derive with `rename_all = "camelCase"`. -/
def analyticsEventFromJson (j : Json) : Option VortexAnalyticsEvent :=
  match j with
  | .obj ms => do
      let id ← reqStrF ms "id"
      let nm ← reqStrF ms "name"
      let acc ← reqStrF ms "accountId"
      let org ← reqStrF ms "organizationId"
      let prj ← reqStrF ms "projectId"
      let env ← reqStrF ms "environmentId"
      let dep ← optStrF ms "deploymentId"
      let wid ← optStrF ms "widgetConfigurationId"
      let fus ← optStrF ms "foreignUserId"
      let ses ← optStrF ms "sessionId"
      let pay ← optMapF ms "payload"
      let plt ← optStrF ms "platform"
      let seg ← optStrF ms "segmentation"
      let ts ← reqStrF ms "timestamp"
      some ⟨id, nm, acc, org, prj, env, dep, wid, fus, ses, pay, plt, seg, ts⟩
  | _ => none

/-- Deserialization of the untagged `VortexEvent`: serde tries the
variants in declaration order, webhook first, analytics second. -/
def vortexEventFromJson (j : Json) : Option VortexEvent :=
  match webhookEventFromJson j with
  | some e => some (.Webhook e)
  | none =>
      match analyticsEventFromJson j with
      | some e => some (.Analytics e)
      | none => none

/-- `serde_json::from_slice::<VortexEvent>`: UTF-8 decode, JSON parse of
the whole input, then the untagged match. -/
def eventFromSlice (payload : List Nat) : Option VortexEvent :=
  match utf8Decode payload with
  | none => none
  | some cs =>
      match parseDoc cs with
      | none => none
      | some j => vortexEventFromJson j

/-! ## Webhook verification (src/webhooks.rs) -/

/-- The webhook verifier: holds the pre-shared secret. -/
structure VortexWebhooks where
  secret : List Char
deriving Repr, DecidableEq

/-- `VortexWebhooks::new`: rejects an empty secret with the
webhook-signature error, otherwise stores the secret. -/
def VortexWebhooks.new (secret : List Char) : Except VortexError VortexWebhooks :=
  if secret = [] then
    .error (.WebhookSignatureError (lc "Webhook secret must not be empty."))
  else .ok ⟨secret⟩

/-- `constant_time_eq` (webhooks.rs lines 81-90): equal-length check, then
one pass accumulating the OR of the XOR of every byte pair — no early
exit — and a final zero test. -/
def constant_time_eq (a b : List Nat) : Bool :=
  if a.length ≠ b.length then false
  else ((a.zip b).foldl (fun diff p => diff ||| (p.1 ^^^ p.2)) 0) == 0

/-- `VortexWebhooks::verify_signature`: recompute HMAC-SHA256 of the
payload under the secret, hex-encode lowercase, and compare the bytes
against the supplied signature in constant time.  (`new_from_slice`
accepts every key length, so the `else return false` branch has no failing
counterpart.)  Total: every payload/signature pair yields a boolean. -/
def VortexWebhooks.verify_signature (w : VortexWebhooks) (payload : List Nat)
    (signature : List Char) : Bool :=
  let expected := hex_encode (hmacSha256 (utf8Encode w.secret) payload)
  constant_time_eq (utf8Encode expected) (utf8Encode signature)

/-- `VortexWebhooks::construct_event`: on signature failure, the
webhook-signature error; on success, deserialize, mapping a parse failure
to the serialization error. -/
def VortexWebhooks.construct_event (w : VortexWebhooks) (payload : List Nat)
    (signature : List Char) : Except VortexError VortexEvent :=
  if w.verify_signature payload signature then
    match eventFromSlice payload with
    | some e => .ok e
    | none => .error (.SerializationError (lc "Failed to parse webhook payload"))
  else
    .error (.WebhookSignatureError
      (lc "Webhook signature verification failed. Ensure you are using the raw request body and the correct signing secret."))

/-! ## Accepting invitations with legacy target lists
(src/client.rs, `VortexClient::accept_invitations`, `Targets` arm) -/

/-- Target type for invitations (src/types.rs). -/
inductive InvitationTargetType where
  | Email
  | Phone
  | Share
  | Internal
deriving Repr, DecidableEq

/-- A legacy invitation target (src/types.rs). -/
structure InvitationTarget where
  target_type : InvitationTargetType
  value : List Char
  name : Option (List Char)
  avatar_url : Option (List Char)
deriving Repr, DecidableEq

/-- User data for accepting invitations (src/types.rs). -/
structure AcceptUser where
  email : Option (List Char)
  phone : Option (List Char)
  name : Option (List Char)
deriving Repr, DecidableEq

/-- The target-to-user conversion in the `Targets` loop: email targets map
to an email user, phone targets to a phone user, anything else defaults to
email. -/
def targetToAcceptUser (t : InvitationTarget) : AcceptUser :=
  match t.target_type with
  | .Email => ⟨some t.value, none, none⟩
  | .Phone => ⟨none, some t.value, none⟩
  | _ => ⟨some t.value, none, none⟩

/-- The `Targets` arm of `accept_invitations` (client.rs lines 283-312).
The per-user acceptance — the recursive call that validates the converted
user and performs the HTTP POST — is the abstract `acceptOne`.  An empty
list is an invalid request; otherwise the loop runs `acceptOne` once per
target in order, remembering the last success and the last error, and
afterwards returns the last error if any call failed, else the last
result. -/
def acceptInvitationsTargets {R : Type} (acceptOne : AcceptUser → Except VortexError R)
    (targets : List InvitationTarget) : Except VortexError R :=
  if targets = [] then .error (.InvalidRequest (lc "No targets provided"))
  else
    let fin := targets.foldl
      (fun (st : Option R × Option VortexError) t =>
        match acceptOne (targetToAcceptUser t) with
        | .ok r => (some r, st.2)
        | .error e => (st.1, some e))
      (none, none)
    match fin.2 with
    | some e => .error e
    | none =>
        match fin.1 with
        | some r => .ok r
        | none => .error (.InvalidRequest (lc "No results"))

/-- The error carried by an `Except` outcome, if any. -/
def exErrOf {E R : Type} (o : Except E R) : Option E :=
  match o with
  | .error e => some e
  | .ok _ => none

/-- The result carried by an `Except` outcome, if any. -/
def exOkOf {E R : Type} (o : Except E R) : Option R :=
  match o with
  | .ok r => some r
  | .error _ => none

/-! ## Shared lemmas -/

/-- A bitwise OR of naturals is zero exactly when both sides are. -/
theorem lorEqZero (a b : Nat) : a ||| b = 0 ↔ a = 0 ∧ b = 0 := by
  constructor
  · intro h
    have hbit : ∀ i, a.testBit i = false ∧ b.testBit i = false := by
      intro i
      have hc := congrArg (fun x => Nat.testBit x i) h
      simpa [Nat.testBit_lor] using hc
    exact ⟨Nat.eq_of_testBit_eq (fun i => by simp [(hbit i).1]),
           Nat.eq_of_testBit_eq (fun i => by simp [(hbit i).2])⟩
  · rintro ⟨rfl, rfl⟩
    rfl

/-- The XOR-accumulating fold of `constant_time_eq` vanishes exactly when
it starts at zero and every byte pair agrees. -/
theorem cteFoldZero (l : List (Nat × Nat)) : ∀ acc : Nat,
    (l.foldl (fun diff p => diff ||| (p.1 ^^^ p.2)) acc = 0 ↔
      acc = 0 ∧ ∀ p ∈ l, p.1 = p.2) := by
  induction l with
  | nil => simp
  | cons p l ih =>
      intro acc
      rw [List.foldl_cons, ih]
      simp [lorEqZero, Nat.xor_eq_zero, and_assoc]

/-- Lists of equal length agree pairwise on their zip exactly when they are
equal. -/
theorem zipAllEq : ∀ (a b : List Nat), a.length = b.length →
    ((∀ p ∈ a.zip b, p.1 = p.2) ↔ a = b)
  | [], [], _ => by simp
  | [], _ :: _, h => by simp at h
  | _ :: _, [], h => by simp at h
  | x :: a, y :: b, h => by
      have ih := zipAllEq a b (by simpa using h)
      simp only [List.zip_cons_cons, List.mem_cons, List.cons.injEq]
      constructor
      · intro hp
        exact ⟨hp (x, y) (Or.inl rfl), (ih.mp (fun p hp2 => hp p (Or.inr hp2)))⟩
      · rintro ⟨rfl, rfl⟩
        intro p hp
        rcases hp with rfl | hp
        · rfl
        · exact (ih.mpr rfl) p hp

/-- `constant_time_eq` decides equality of byte strings. -/
theorem constant_time_eq_iff (a b : List Nat) : constant_time_eq a b = true ↔ a = b := by
  unfold constant_time_eq
  by_cases h : a.length = b.length
  · rw [if_neg (by simp [h]), beq_iff_eq, cteFoldZero]
    constructor
    · intro hz
      exact (zipAllEq a b h).mp hz.2
    · rintro rfl
      exact ⟨rfl, (zipAllEq a a rfl).mpr rfl⟩
  · rw [if_pos (by simp [h])]
    simp only [Bool.false_eq_true, false_iff]
    intro heq
    exact h (by rw [heq])

/-- `constant_time_eq` is reflexive. -/
theorem constant_time_eq_self (a : List Nat) : constant_time_eq a a = true :=
  (constant_time_eq_iff a a).mpr rfl

/-! ## Claim theorems -/

/-- C2: the byte comparison of `verify_signature` first checks lengths,
then accumulates the XOR of every byte pair with a full fold (no early
exit), and returns `true` exactly when the two byte strings are equal. -/
theorem C2_constant_time_eq_correct :
    ∀ a b : List Nat,
      (constant_time_eq a b =
        (if a.length ≠ b.length then false
         else ((a.zip b).foldl (fun diff p => diff ||| (p.1 ^^^ p.2)) 0) == 0)) ∧
      (constant_time_eq a b = true ↔ a = b) := by
  intro a b
  exact ⟨rfl, constant_time_eq_iff a b⟩

/-- C6: verification accepts the lowercase-hex HMAC-SHA256 of the payload
under the verifier's own secret, and is a total boolean function. -/
theorem C6_verify_signature_accepts_own_hmac :
    ∀ (w : VortexWebhooks) (payload : List Nat),
      w.verify_signature payload (hex_encode (hmacSha256 (utf8Encode w.secret) payload)) = true ∧
      ∀ signature, w.verify_signature payload signature = true ∨
        w.verify_signature payload signature = false := by
  intro w payload
  constructor
  · unfold VortexWebhooks.verify_signature
    exact constant_time_eq_self _
  · intro signature
    cases h : w.verify_signature payload signature
    · right; rfl
    · left; rfl

/-- C3: an empty webhook secret fails construction with the
webhook-signature error; `construct_event` fails with that error class
exactly when `verify_signature` is false, and on success deserializes,
mapping parse failure to the distinct serialization error. -/
theorem C3_construct_event_error_classes :
    (VortexWebhooks.new [] =
      .error (.WebhookSignatureError (lc "Webhook secret must not be empty."))) ∧
    ∀ (w : VortexWebhooks) (payload : List Nat) (signature : List Char),
      ((∃ m, w.construct_event payload signature = .error (.WebhookSignatureError m)) ↔
        w.verify_signature payload signature = false) ∧
      (w.construct_event payload signature =
        if w.verify_signature payload signature then
          match eventFromSlice payload with
          | some e => .ok e
          | none => .error (.SerializationError (lc "Failed to parse webhook payload"))
        else
          .error (.WebhookSignatureError
            (lc "Webhook signature verification failed. Ensure you are using the raw request body and the correct signing secret."))) := by
  refine ⟨rfl, ?_⟩
  intro w payload signature
  constructor
  · unfold VortexWebhooks.construct_event
    by_cases hv : w.verify_signature payload signature
    · simp only [hv, if_true, Bool.true_eq_false, iff_false, not_exists]
      intro m
      cases he : eventFromSlice payload <;> simp [he]
    · simp only [hv, Bool.false_eq_true, if_false]
      simp [Bool.not_eq_true] at hv
      simp [hv]
  · rfl

/-- C10: the untagged event union tries the webhook shape first, so a JSON
value matching both shapes deserializes to the webhook variant. -/
theorem C10_untagged_webhook_first :
    ∀ (j : Json) (w : VortexWebhookEvent) (a : VortexAnalyticsEvent),
      webhookEventFromJson j = some w → analyticsEventFromJson j = some a →
      vortexEventFromJson j = some (.Webhook w) := by
  intro j w a hw _
  simp [vortexEventFromJson, hw]

/-- C10 witness: a concrete JSON object that matches both event shapes and
deserializes to the webhook variant. -/
theorem C10_untagged_webhook_first_witness :
    webhookEventFromJson
        (.obj [(lc "id", .str (lc "e1")), (lc "type", .str (lc "t1")),
               (lc "timestamp", .str (lc "ts")), (lc "accountId", .str (lc "a1")),
               (lc "sourceTable", .str (lc "st")), (lc "operation", .str (lc "op")),
               (lc "data", .obj []), (lc "name", .str (lc "n1")),
               (lc "organizationId", .str (lc "o1")), (lc "projectId", .str (lc "p1")),
               (lc "environmentId", .str (lc "env"))]) =
      some ⟨lc "e1", lc "t1", lc "ts", lc "a1", some (lc "env"), lc "st", lc "op", []⟩ ∧
    analyticsEventFromJson
        (.obj [(lc "id", .str (lc "e1")), (lc "type", .str (lc "t1")),
               (lc "timestamp", .str (lc "ts")), (lc "accountId", .str (lc "a1")),
               (lc "sourceTable", .str (lc "st")), (lc "operation", .str (lc "op")),
               (lc "data", .obj []), (lc "name", .str (lc "n1")),
               (lc "organizationId", .str (lc "o1")), (lc "projectId", .str (lc "p1")),
               (lc "environmentId", .str (lc "env"))]) =
      some ⟨lc "e1", lc "n1", lc "a1", lc "o1", lc "p1", lc "env",
            none, none, none, none, none, none, none, lc "ts"⟩ ∧
    vortexEventFromJson
        (.obj [(lc "id", .str (lc "e1")), (lc "type", .str (lc "t1")),
               (lc "timestamp", .str (lc "ts")), (lc "accountId", .str (lc "a1")),
               (lc "sourceTable", .str (lc "st")), (lc "operation", .str (lc "op")),
               (lc "data", .obj []), (lc "name", .str (lc "n1")),
               (lc "organizationId", .str (lc "o1")), (lc "projectId", .str (lc "p1")),
               (lc "environmentId", .str (lc "env"))]) =
      some (.Webhook ⟨lc "e1", lc "t1", lc "ts", lc "a1", some (lc "env"), lc "st", lc "op", []⟩) :=
  ⟨rfl, rfl, C10_untagged_webhook_first _ _ _ rfl rfl⟩

/-! ## C9: the legacy target-list aggregation -/

/-- The loop state of the `Targets` arm after folding a list of outcomes:
the first component remembers the last success, the second the last
error. -/
theorem acceptFoldSpec {R : Type} (f : AcceptUser → Except VortexError R) :
    ∀ (l : List InvitationTarget) (st : Option R × Option VortexError),
      l.foldl
        (fun (st : Option R × Option VortexError) t =>
          match f (targetToAcceptUser t) with
          | .ok r => (some r, st.2)
          | .error e => (st.1, some e))
        st =
      (((l.map (fun t => f (targetToAcceptUser t))).filterMap exOkOf).getLast?.or st.1,
       ((l.map (fun t => f (targetToAcceptUser t))).filterMap exErrOf).getLast?.or st.2) := by
  intro l
  induction l using List.reverseRecOn with
  | nil => intro st; simp
  | append_singleton xs x ih =>
      intro st
      rw [List.foldl_append]
      rw [ih]
      cases hfx : f (targetToAcceptUser x) with
      | ok r =>
          simp [List.filterMap_append, hfx, exOkOf, exErrOf, List.getLast?_append]
      | error e =>
          simp [List.filterMap_append, hfx, exOkOf, exErrOf, List.getLast?_append]

/-- C9: with an empty legacy target list, `accept_invitations` fails with
the invalid-request error; with a non-empty list it applies the accept
operation once per element, in order, and returns the last error of the
outcome sequence if any call failed, else the last result. -/
theorem C9_accept_targets_aggregates_last :
    ∀ {R : Type} (acceptOne : AcceptUser → Except VortexError R)
      (targets : List InvitationTarget),
      (targets = [] →
        acceptInvitationsTargets acceptOne targets =
          .error (.InvalidRequest (lc "No targets provided"))) ∧
      (targets ≠ [] →
        acceptInvitationsTargets acceptOne targets =
          match ((targets.map (fun t => acceptOne (targetToAcceptUser t))).filterMap
              exErrOf).getLast? with
          | some e => .error e
          | none =>
              match ((targets.map (fun t => acceptOne (targetToAcceptUser t))).filterMap
                  exOkOf).getLast? with
              | some r => .ok r
              | none => .error (.InvalidRequest (lc "No results"))) := by
  intro R acceptOne targets
  constructor
  · rintro rfl
    rfl
  · intro hne
    unfold acceptInvitationsTargets
    rw [if_neg hne]
    rw [acceptFoldSpec]
    simp only [Option.or_none]

/-- C9 witness: the empty list is an invalid request, and a singleton list
returns its only result. -/
theorem C9_accept_targets_aggregates_last_witness :
    acceptInvitationsTargets (fun _ => (.error (.ApiError (lc "boom")) : Except VortexError Nat))
        [] =
      .error (.InvalidRequest (lc "No targets provided")) ∧
    acceptInvitationsTargets (fun _ => (.ok 7 : Except VortexError Nat))
        [⟨.Email, lc "a", none, none⟩] =
      .ok 7 :=
  ⟨(C9_accept_targets_aggregates_last _ _).1 rfl,
   ((C9_accept_targets_aggregates_last _ _).2 (List.cons_ne_nil _ _)).trans rfl⟩

/-! ## C4, C1, C8: key parsing and token structure -/

/-- C4: key parsing succeeds exactly on three dot-separated segments with
the literal `VRTX` tag and a base64url id segment decoding to 16 bytes,
yielding the canonical UUID text and the secret bytes; every failure is an
`InvalidApiKey` error. -/
theorem C4_parse_api_key_characterization :
    ∀ apiKey : List Char,
      (∀ u sec, parseApiKey apiKey = .ok (u, sec) ↔
        ∃ encId key bs, splitDot apiKey = [lc "VRTX", encId, key] ∧
          decB64 encId = some bs ∧ bs.length = 16 ∧
          u = uuidStr bs ∧ sec = utf8Encode key) ∧
      (∀ e, parseApiKey apiKey = .error e → ∃ m, e = .InvalidApiKey m) := by
  intro apiKey
  constructor
  · intro u sec
    constructor
    · intro h
      unfold parseApiKey at h
      split at h
      · rename_i seg0 encodedId key heq
        split at h
        · simp at h
        · rename_i hp
          split at h
          · simp at h
          · rename_i idBytes hdec
            split at h
            · simp at h
            · rename_i hlen
              simp only [Except.ok.injEq, Prod.mk.injEq] at h
              obtain ⟨h1, h2⟩ := h
              refine ⟨encodedId, key, idBytes, ?_, hdec, by omega, h1.symm, h2.symm⟩
              rw [heq, not_not.mp hp]
      · simp at h
    · rintro ⟨encId, key, bs, hspl, hdec, hlen, rfl, rfl⟩
      unfold parseApiKey
      rw [hspl]
      simp [hdec, hlen]
  · intro e he
    unfold parseApiKey at he
    repeat' split at he
    all_goals first
      | (exact ⟨_, ((Except.error.injEq _ _).mp he).symm⟩)
      | simp at he

/-- C4 witness: a concrete well-formed key parses to the zero UUID and the
secret bytes, through the characterization. -/
theorem C4_parse_api_key_characterization_witness :
    parseApiKey (lc "VRTX.AAAAAAAAAAAAAAAAAAAAAA.secret") =
      .ok (uuidStr (List.replicate 16 0), utf8Encode (lc "secret")) :=
  ((C4_parse_api_key_characterization (lc "VRTX.AAAAAAAAAAAAAAAAAAAAAA.secret")).1 _ _).mpr
    ⟨lc "AAAAAAAAAAAAAAAAAAAAAA", lc "secret", List.replicate 16 0, by decide, rfl,
     by decide, rfl, rfl⟩

/-- C1: on every key that parses, the token is the three-part string
`header_b64.payload_b64.signature_b64` where the signature is HMAC-SHA256
of `header_b64.payload_b64` under the signing key, itself HMAC-SHA256 of
the UUID text's UTF-8 bytes under the secret bytes, every segment
base64url-encoded without padding. -/
theorem C1_generate_jwt_structure :
    ∀ (apiKey : List Char) (user : User) (extra : List (List Char × Json)) (now : Nat)
      (uuidText : List Char) (keyBytes : List Nat),
      parseApiKey apiKey = .ok (uuidText, keyBytes) →
      generateJwt apiKey user extra now =
        .ok (headerSeg now uuidText ++ '.' :: payloadSeg user now extra ++ '.' ::
          encB64 (hmacSha256 (hmacSha256 keyBytes (utf8Encode uuidText))
            (utf8Encode (headerSeg now uuidText ++ '.' :: payloadSeg user now extra)))) := by
  intro apiKey user extra now uuidText keyBytes h
  unfold generateJwt
  rw [h]

/-- C1 witness: the structure theorem instantiated at a concrete key whose
parse is discharged by evaluation. -/
theorem C1_generate_jwt_structure_witness :
    parseApiKey (lc "VRTX.AAAAAAAAAAAAAAAAAAAAAA.k1") =
      .ok (uuidStr (List.replicate 16 0), utf8Encode (lc "k1")) ∧
    generateJwt (lc "VRTX.AAAAAAAAAAAAAAAAAAAAAA.k1")
        ⟨lc "u1", lc "e1", none, none, none, none⟩ [] 5 =
      .ok (headerSeg 5 (uuidStr (List.replicate 16 0)) ++ '.' ::
        payloadSeg ⟨lc "u1", lc "e1", none, none, none, none⟩ 5 [] ++ '.' ::
        encB64 (hmacSha256
          (hmacSha256 (utf8Encode (lc "k1")) (utf8Encode (uuidStr (List.replicate 16 0))))
          (utf8Encode (headerSeg 5 (uuidStr (List.replicate 16 0)) ++ '.' ::
            payloadSeg ⟨lc "u1", lc "e1", none, none, none, none⟩ 5 [])))) :=
  ⟨rfl, C1_generate_jwt_structure _ _ _ _ _ _ rfl⟩

/-- C8 counterexample: the key whose third segment is empty is accepted by
parsing — the parsed secret is the empty byte string, refuting the claim
that such keys are rejected. -/
theorem C8_counterexample_empty_secret_accepted :
    parseApiKey (lc "VRTX.AAAAAAAAAAAAAAAAAAAAAA.") =
      .ok (uuidStr (List.replicate 16 0), []) := rfl

/-- C8 amended: parsing does not validate the secret segment, but the
HMAC key-derivation failure branch is still unreachable for parsed keys,
because HMAC-SHA256 accepts a key of any length — token generation
succeeds on every parsed key, the empty-secret one included. -/
theorem C8_amended_parsed_keys_always_sign :
    ∀ (apiKey : List Char) (user : User) (extra : List (List Char × Json)) (now : Nat)
      (uuidText : List Char) (keyBytes : List Nat),
      parseApiKey apiKey = .ok (uuidText, keyBytes) →
      ∃ token, generateJwt apiKey user extra now = .ok token := by
  intro apiKey user extra now uuidText keyBytes h
  unfold generateJwt
  rw [h]
  exact ⟨_, rfl⟩

/-- C8 amended witness: the empty-secret key signs successfully. -/
theorem C8_amended_parsed_keys_always_sign_witness :
    ∃ token,
      generateJwt (lc "VRTX.AAAAAAAAAAAAAAAAAAAAAA.")
        ⟨lc "u1", lc "e1", none, none, none, none⟩ [] 0 = .ok token :=
  C8_amended_parsed_keys_always_sign _ _ _ _ _ _ rfl

/-! ## C5: the payload object -/

/-- Looking up the key just written returns the new value. -/
theorem objGet_objSet_self (ms : List (List Char × Json)) (k : List Char) (v : Json) :
    objGet (objSet ms k v) k = some v := by
  induction ms with
  | nil => simp [objSet, objGet]
  | cons p rest ih =>
      obtain ⟨k2, v2⟩ := p
      by_cases hk : k2 = k
      · simp [objSet, objGet, hk]
      · simp [objSet, objGet, hk, ih]

/-- Writing one key leaves every other key's lookup unchanged. -/
theorem objGet_objSet_ne (ms : List (List Char × Json)) (k : List Char) (v : Json)
    (k2 : List Char) (h : k2 ≠ k) : objGet (objSet ms k v) k2 = objGet ms k2 := by
  induction ms with
  | nil => simp [objSet, objGet, Ne.symm h]
  | cons p rest ih =>
      obtain ⟨k3, v3⟩ := p
      by_cases hk : k3 = k
      · subst hk
        simp [objSet, objGet, Ne.symm h]
      · by_cases hk2 : k3 = k2
        · subst hk2
          simp [objSet, objGet, hk, h]
        · simp [objSet, objGet, hk, hk2, ih]

/-- Folding extension writes over an object makes the last write of each
key win, and leaves untouched keys to the base object. -/
theorem objGet_foldl_objSet (extra : List (List Char × Json)) :
    ∀ (ms : List (List Char × Json)) (k : List Char),
      objGet (extra.foldl (fun o kv => objSet o kv.1 kv.2) ms) k =
        match lastAssoc extra k with
        | some v => some v
        | none => objGet ms k := by
  induction extra using List.reverseRecOn with
  | nil => intro ms k; simp [lastAssoc]
  | append_singleton xs x ih =>
      intro ms k
      rw [List.foldl_append, List.foldl_cons, List.foldl_nil]
      by_cases hk : x.1 = k
      · rw [hk, objGet_objSet_self]
        simp [lastAssoc, List.filter_append, hk]
      · rw [objGet_objSet_ne _ _ _ _ (fun hc => hk hc.symm), ih]
        have hfilter : (xs ++ [x]).filter (fun kv => kv.1 == k) =
            xs.filter (fun kv => kv.1 == k) := by
          simp [List.filter_append, hk]
        simp [lastAssoc, hfilter]

/-- A key with a non-`none` lookup occurs among the object's keys. -/
theorem objGet_ne_none_mem (ms : List (List Char × Json)) (k : List Char) :
    objGet ms k ≠ none → k ∈ ms.map Prod.fst := by
  induction ms with
  | nil => intro h; exact absurd rfl h
  | cons p rest ih =>
      obtain ⟨k2, v2⟩ := p
      by_cases hk : k2 = k
      · intro _
        subst hk
        rw [List.map_cons]
        exact List.mem_cons_self _ _
      · intro h
        rw [objGet, if_neg hk] at h
        simp only [List.map_cons, List.mem_cons]
        exact Or.inr (ih h)

/-- C5: the token payload is the standard object — `userId`, `userEmail`,
fixed `expires = now + 3600`, then each optional field only when present,
the domain list only when nonempty, and nothing else — overlaid by the
extension entries applied last, so the last write of any key, extension
writes included, wins. -/
theorem C5_payload_standard_then_extensions :
    ∀ (user : User) (now : Nat) (extra : List (List Char × Json)) (k : List Char),
      (jwtPayload user now extra =
        extra.foldl (fun o kv => objSet o kv.1 kv.2) (jwtStandard user now)) ∧
      (objGet (jwtPayload user now extra) k =
        match lastAssoc extra k with
        | some v => some v
        | none => objGet (jwtStandard user now) k) ∧
      objGet (jwtStandard user now) (lc "userId") = some (.str user.id) ∧
      objGet (jwtStandard user now) (lc "userEmail") = some (.str user.email) ∧
      objGet (jwtStandard user now) (lc "expires") = some (.num (now + 3600)) ∧
      objGet (jwtStandard user now) (lc "userName") = user.userName.map Json.str ∧
      objGet (jwtStandard user now) (lc "userAvatarUrl") = user.userAvatarUrl.map Json.str ∧
      objGet (jwtStandard user now) (lc "adminScopes") =
        user.adminScopes.map (fun sc => Json.arr (sc.map Json.str)) ∧
      objGet (jwtStandard user now) (lc "allowedEmailDomains") =
        (match user.allowedEmailDomains with
         | some ds => if ds = [] then none else some (Json.arr (ds.map Json.str))
         | none => none) ∧
      (∀ k2, objGet (jwtStandard user now) k2 ≠ none →
        k2 ∈ [lc "userId", lc "userEmail", lc "expires", lc "userName",
              lc "userAvatarUrl", lc "adminScopes", lc "allowedEmailDomains"]) := by
  intro user now extra k
  obtain ⟨uid, uem, un, ua, sc, dm⟩ := user
  refine ⟨rfl, objGet_foldl_objSet extra _ k, ?_⟩
  rcases un with _ | n <;> rcases ua with _ | a <;> rcases sc with _ | s <;>
    rcases dm with _ | d
  all_goals try by_cases hd : d = []
  all_goals try subst hd
  all_goals refine ⟨?_, ?_, ?_, ?_, ?_, ?_, ?_, ?_⟩
  all_goals first
    | (intro k2 hne
       have hmem := objGet_ne_none_mem _ _ hne
       simp +decide [jwtStandard, jwtSeed, objSet, objGet, hd] at hmem ⊢
       tauto)
    | (intro k2 hne
       have hmem := objGet_ne_none_mem _ _ hne
       simp +decide [jwtStandard, jwtSeed, objSet, objGet] at hmem ⊢
       tauto)
    | simp +decide [jwtStandard, jwtSeed, objSet, objGet, hd]
    | simp +decide [jwtStandard, jwtSeed, objSet, objGet]

/-- C5 witness: an extension entry named `userId` overwrites the standard
value (last write wins), and a key with a value in the standard payload is
one of the seven standard names. -/
theorem C5_payload_standard_then_extensions_witness :
    objGet (jwtPayload ⟨lc "u", lc "e", none, none, none, none⟩ 1
        [(lc "userId", Json.str (lc "override"))]) (lc "userId") =
      some (Json.str (lc "override")) ∧
    lc "userId" ∈ [lc "userId", lc "userEmail", lc "expires", lc "userName",
        lc "userAvatarUrl", lc "adminScopes", lc "allowedEmailDomains"] :=
  ⟨((C5_payload_standard_then_extensions ⟨lc "u", lc "e", none, none, none, none⟩ 1
      [(lc "userId", Json.str (lc "override"))] (lc "userId")).2.1).trans rfl,
   (C5_payload_standard_then_extensions ⟨lc "u", lc "e", none, none, none, none⟩ 1
      [] (lc "userId")).2.2.2.2.2.2.2.2.2 (lc "userId") (fun h => Option.noConfusion h)⟩

/-! ## C7: the codec round-trips -/

/-- The base64url alphabet decodes its own characters. -/
theorem b64Inverse : ∀ n, n < 64 → b64Val (b64Char n) = some n := by decide

/-- Base64url decoding inverts encoding on byte strings. -/
theorem decB64_encB64 : ∀ (bs : List Nat), (∀ b ∈ bs, b < 256) → decB64 (encB64 bs) = some bs
  | [], _ => rfl
  | [b1], h => by
      have hb1 : b1 < 256 := h b1 (by simp)
      show decB64 [b64Char (b1 / 4), b64Char (b1 % 4 * 16)] = some [b1]
      simp only [decB64, b64Inverse _ (by omega : b1 / 4 < 64),
        b64Inverse _ (by omega : b1 % 4 * 16 < 64), Option.bind_eq_bind, Option.some_bind]
      rw [if_pos (by omega)]
      congr 1
      simp only [List.cons.injEq, and_true]
      omega
  | [b1, b2], h => by
      have hb1 : b1 < 256 := h b1 (by simp)
      have hb2 : b2 < 256 := h b2 (by simp)
      show decB64 [b64Char (b1 / 4), b64Char (b1 % 4 * 16 + b2 / 16), b64Char (b2 % 16 * 4)] =
        some [b1, b2]
      simp only [decB64, b64Inverse _ (by omega : b1 / 4 < 64),
        b64Inverse _ (by omega : b1 % 4 * 16 + b2 / 16 < 64),
        b64Inverse _ (by omega : b2 % 16 * 4 < 64), Option.bind_eq_bind, Option.some_bind]
      rw [if_pos (by omega)]
      congr 1
      simp only [List.cons.injEq, and_true]
      constructor
      · omega
      · omega
  | b1 :: b2 :: b3 :: rest, h => by
      have hb1 : b1 < 256 := h b1 (by simp)
      have hb2 : b2 < 256 := h b2 (by simp)
      have hb3 : b3 < 256 := h b3 (by simp)
      have ih := decB64_encB64 rest (fun b hb => h b (by simp [hb]))
      show decB64 (b64Char (b1 / 4) :: b64Char (b1 % 4 * 16 + b2 / 16) ::
        b64Char (b2 % 16 * 4 + b3 / 64) :: b64Char (b3 % 64) :: encB64 rest) =
        some (b1 :: b2 :: b3 :: rest)
      simp only [decB64, b64Inverse _ (by omega : b1 / 4 < 64),
        b64Inverse _ (by omega : b1 % 4 * 16 + b2 / 16 < 64),
        b64Inverse _ (by omega : b2 % 16 * 4 + b3 / 64 < 64),
        b64Inverse _ (by omega : b3 % 64 < 64), Option.bind_eq_bind, Option.some_bind, ih]
      congr 1
      simp only [List.cons.injEq, and_true]
      refine ⟨by omega, by omega, by omega⟩

/-- The scalar-value range of a character, from its validity. -/
theorem charValidNat (c : Char) :
    c.toNat < 55296 ∨ (57344 ≤ c.toNat ∧ c.toNat < 1114112) := by
  rcases c.valid with h | ⟨h1, h2⟩
  · left; exact_mod_cast h
  · right; constructor <;> exact_mod_cast ‹_›

/-- Every UTF-8 byte of a character is a byte. -/
theorem utf8Ch_lt (c : Char) : ∀ b ∈ utf8Ch c, b < 256 := by
  have hval := charValidNat c
  by_cases h1 : c.toNat < 128
  · rw [show utf8Ch c = [c.toNat] from by simp [utf8Ch, h1]]
    intro b hb
    simp only [List.mem_singleton] at hb
    omega
  · by_cases h2 : c.toNat < 2048
    · rw [show utf8Ch c = [192 + c.toNat / 64, 128 + c.toNat % 64] from by
        simp [utf8Ch, h1, h2]]
      intro b hb
      simp only [List.mem_cons, List.not_mem_nil, or_false] at hb
      rcases hb with rfl | rfl <;> omega
    · by_cases h3 : c.toNat < 65536
      · rw [show utf8Ch c =
          [224 + c.toNat / 4096, 128 + c.toNat / 64 % 64, 128 + c.toNat % 64] from by
          simp [utf8Ch, h1, h2, h3]]
        intro b hb
        simp only [List.mem_cons, List.not_mem_nil, or_false] at hb
        rcases hb with rfl | rfl | rfl <;> omega
      · rw [show utf8Ch c = [240 + c.toNat / 262144, 128 + c.toNat / 4096 % 64,
          128 + c.toNat / 64 % 64, 128 + c.toNat % 64] from by simp [utf8Ch, h1, h2, h3]]
        intro b hb
        simp only [List.mem_cons, List.not_mem_nil, or_false] at hb
        rcases hb with rfl | rfl | rfl | rfl <;> omega

/-- Every UTF-8 byte of a text is a byte. -/
theorem utf8Encode_lt (cs : List Char) : ∀ b ∈ utf8Encode cs, b < 256 := by
  intro b hb
  simp only [utf8Encode, List.mem_flatMap] at hb
  obtain ⟨c, -, hbc⟩ := hb
  exact utf8Ch_lt c b hbc

/-- Decoding one character's UTF-8 bytes peels it off. -/
theorem utf8Decode_ch (c : Char) (bs : List Nat) :
    utf8Decode (utf8Ch c ++ bs) = (utf8Decode bs).map (fun l => c :: l) := by
  have hval := charValidNat c
  by_cases h1 : c.toNat < 128
  · rw [show utf8Ch c ++ bs = c.toNat :: bs from by simp [utf8Ch, h1]]
    rw [utf8Decode, if_pos h1, Char.ofNat_toNat]
  · by_cases h2 : c.toNat < 2048
    · rw [show utf8Ch c ++ bs =
        (192 + c.toNat / 64) :: (128 + c.toNat % 64) :: bs from by simp [utf8Ch, h1, h2]]
      rw [utf8Decode, if_neg (by omega), if_neg (by omega), if_pos (by omega)]
      rw [utf8Tail2, if_pos (by constructor <;> omega)]
      rw [show (192 + c.toNat / 64 - 192) * 64 + (128 + c.toNat % 64 - 128) = c.toNat from
        by omega]
      rw [Char.ofNat_toNat]
    · by_cases h3 : c.toNat < 65536
      · rw [show utf8Ch c ++ bs =
          (224 + c.toNat / 4096) :: (128 + c.toNat / 64 % 64) :: (128 + c.toNat % 64) :: bs from
          by simp [utf8Ch, h1, h2, h3]]
        rw [utf8Decode, if_neg (by omega), if_neg (by omega), if_neg (by omega),
          if_pos (by omega)]
        rw [utf8Tail3, if_pos (by refine ⟨by omega, by omega, by omega, by omega⟩)]
        dsimp only
        rw [show (224 + c.toNat / 4096 - 224) * 4096 + (128 + c.toNat / 64 % 64 - 128) * 64 +
          (128 + c.toNat % 64 - 128) = c.toNat from by omega]
        rw [if_pos (by omega), Char.ofNat_toNat]
      · rw [show utf8Ch c ++ bs =
          (240 + c.toNat / 262144) :: (128 + c.toNat / 4096 % 64) :: (128 + c.toNat / 64 % 64) ::
            (128 + c.toNat % 64) :: bs from by simp [utf8Ch, h1, h2, h3]]
        rw [utf8Decode, if_neg (by omega), if_neg (by omega), if_neg (by omega),
          if_neg (by omega), if_pos (by omega)]
        rw [utf8Tail4,
          if_pos (by refine ⟨by omega, by omega, by omega, by omega, by omega, by omega⟩)]
        dsimp only
        rw [show (240 + c.toNat / 262144 - 240) * 262144 + (128 + c.toNat / 4096 % 64 - 128) *
          4096 + (128 + c.toNat / 64 % 64 - 128) * 64 + (128 + c.toNat % 64 - 128) = c.toNat from
          by omega]
        rw [if_pos (by omega), Char.ofNat_toNat]

/-- UTF-8 decoding inverts encoding. -/
theorem utf8Decode_encode (cs : List Char) : utf8Decode (utf8Encode cs) = some cs := by
  induction cs with
  | nil => rfl
  | cons c rest ih =>
      rw [show utf8Encode (c :: rest) = utf8Ch c ++ utf8Encode rest from by
        simp [utf8Encode]]
      rw [utf8Decode_ch, ih]
      rfl

/-! ## Decimal digits and the number token -/

/-- Digit characters are digits. -/
theorem digitCh_isDig : ∀ d, d < 10 → isDig (digitCh d) = true := by decide

/-- The code point of a digit character. -/
theorem digitCh_toNat : ∀ d, d < 10 → (digitCh d).toNat = 48 + d := by decide

/-- Nonzero digits do not render as `0`. -/
theorem digitCh_ne_zero : ∀ d, 1 ≤ d → d < 10 → digitCh d ≠ '0' := by decide

/-- The accumulator of `natChA` rides along on the right. -/
theorem natChA_acc (n : Nat) : ∀ acc, natChA n acc = natChA n [] ++ acc := by
  induction n using Nat.strongRecOn with
  | _ n ih =>
    intro acc
    by_cases h : n < 10
    · rw [natChA, if_pos h, natChA, if_pos h]
      rfl
    · rw [natChA, if_neg h, ih (n / 10) (by omega)]
      have hr : natChA n [] = natChA (n / 10) [] ++ [digitCh (n % 10)] := by
        rw [natChA, if_neg h, ih (n / 10) (by omega)]
      rw [hr]
      simp

/-- A small number renders as its single digit. -/
theorem natCh_small (n : Nat) (h : n < 10) : natCh n = [digitCh n] := by
  rw [natCh, natChA, if_pos h]

/-- A large number renders as its leading digits then its last digit. -/
theorem natCh_big (n : Nat) (h : 10 ≤ n) : natCh n = natCh (n / 10) ++ [digitCh (n % 10)] := by
  rw [natCh, natChA, if_neg (by omega), natChA_acc]
  rfl

/-- A rendered number is never empty. -/
theorem natCh_ne_nil (n : Nat) : natCh n ≠ [] := by
  by_cases h : n < 10
  · rw [natCh_small n h]
    simp
  · rw [natCh_big n (by omega)]
    simp

/-- Every character of a rendered number is a digit. -/
theorem natCh_digits (n : Nat) : ∀ c ∈ natCh n, isDig c = true := by
  induction n using Nat.strongRecOn with
  | _ n ih =>
    by_cases h : n < 10
    · rw [natCh_small n h]
      intro c hc
      simp only [List.mem_singleton] at hc
      subst hc
      exact digitCh_isDig n h
    · rw [natCh_big n (by omega)]
      intro c hc
      rcases List.mem_append.mp hc with hc | hc
      · exact ih (n / 10) (by omega) c hc
      · simp only [List.mem_singleton] at hc
        subst hc
        exact digitCh_isDig _ (Nat.mod_lt _ (by omega))

/-- A positive rendered number does not start with the digit zero. -/
theorem natCh_head_ne_zero (n : Nat) (h1 : 1 ≤ n) : ∀ c t, natCh n = c :: t → c ≠ '0' := by
  induction n using Nat.strongRecOn with
  | _ n ih =>
    intro c t hct
    by_cases h : n < 10
    · rw [natCh_small n h] at hct
      simp only [List.cons.injEq] at hct
      rw [← hct.1]
      exact digitCh_ne_zero n h1 h
    · rw [natCh_big n (by omega)] at hct
      obtain ⟨c2, t2, hck⟩ : ∃ c2 t2, natCh (n / 10) = c2 :: t2 := by
        cases hnc : natCh (n / 10) with
        | nil => exact absurd hnc (natCh_ne_nil _)
        | cons a b => exact ⟨a, b, rfl⟩
      rw [hck] at hct
      simp only [List.cons_append, List.cons.injEq] at hct
      rw [← hct.1]
      exact ih (n / 10) (by omega) (by omega) c2 t2 hck

/-- `digVal` peels the last digit. -/
theorem digVal_append (l : List Char) (c : Char) :
    digVal (l ++ [c]) = digVal l * 10 + (c.toNat - 48) := by
  simp [digVal, List.foldl_append]

/-- `digVal` inverts the decimal rendering. -/
theorem digVal_natCh (n : Nat) : digVal (natCh n) = n := by
  induction n using Nat.strongRecOn with
  | _ n ih =>
    by_cases h : n < 10
    · rw [natCh_small n h]
      simp only [digVal, List.foldl_cons, List.foldl_nil]
      rw [digitCh_toNat n h]
      omega
    · rw [natCh_big n (by omega), digVal_append, ih (n / 10) (by omega),
        digitCh_toNat _ (Nat.mod_lt _ (by omega))]
      omega

/-- `digSpan` does not move on a non-digit head. -/
theorem digSpan_nodig : ∀ (cs : List Char), (∀ c t, cs = c :: t → isDig c = false) →
    digSpan cs = ([], cs)
  | [], _ => rfl
  | c :: t, h => by
      rw [digSpan, if_neg (by simp [h c t rfl])]

/-- `digSpan` consumes exactly a digit run that a non-digit follows. -/
theorem digSpan_run : ∀ (ds : List Char), (∀ c ∈ ds, isDig c = true) →
    ∀ rest, digSpan rest = ([], rest) → digSpan (ds ++ rest) = (ds, rest)
  | [], _, rest, hr => by simpa using hr
  | c :: ds, h, rest, hr => by
      rw [List.cons_append, digSpan, if_pos (by simp [h c (by simp)])]
      rw [digSpan_run ds (fun x hx => h x (by simp [hx])) rest hr]

/-- A `numStop` remainder starts with no digit. -/
theorem numStop_digSpan (rest : List Char) (h : numStop rest) : digSpan rest = ([], rest) := by
  refine digSpan_nodig rest ?_
  intro c t hct
  subst hct
  exact h.1

/-- A `numStop` remainder cannot extend a number. -/
theorem numStop_numExt (rest : List Char) (h : numStop rest) : numExt rest = false := by
  cases rest with
  | nil => rfl
  | cons c t =>
      obtain ⟨-, h2, h3, h4⟩ := h
      simp [numExt, h2, h3, h4]

/-- The number token parse inverts the decimal rendering of an integer. -/
theorem parseIntTok_intCh (i : Int) (rest : List Char) (hstop : numStop rest) :
    parseIntTok (intCh i ++ rest) = some (i, rest) := by
  by_cases hneg : i < 0
  · have hm : 1 ≤ i.natAbs := by omega
    obtain ⟨c, t, hct⟩ : ∃ c t, natCh i.natAbs = c :: t := by
      cases hnc : natCh i.natAbs with
      | nil => exact absurd hnc (natCh_ne_nil _)
      | cons a b => exact ⟨a, b, rfl⟩
    have hspan : digSpan (natCh i.natAbs ++ rest) = (c :: t, rest) := by
      rw [digSpan_run _ (natCh_digits _) rest (numStop_digSpan rest hstop), hct]
    have hzero : ¬(c = '0' ∧ t ≠ []) := by
      by_cases hm10 : i.natAbs < 10
      · rw [natCh_small _ hm10] at hct
        simp only [List.cons.injEq] at hct
        rintro ⟨-, hne⟩
        exact hne hct.2.symm
      · rintro ⟨hc0, -⟩
        exact natCh_head_ne_zero i.natAbs hm c t hct hc0
    rw [show intCh i ++ rest = '-' :: (natCh i.natAbs ++ rest) from by simp [intCh, hneg]]
    simp only [parseIntTok, negSign, decide_eq_true_eq, eq_self_iff_true, if_true]
    rw [show List.drop 1 ('-' :: (natCh i.natAbs ++ rest)) = natCh i.natAbs ++ rest from rfl]
    rw [hspan]
    dsimp only
    rw [if_neg hzero, if_neg (by simp [numStop_numExt rest hstop])]
    simp only [Option.some.injEq, Prod.mk.injEq, and_true]
    rw [← hct, digVal_natCh]
    simp only [Int.ofNat_eq_natCast]
    omega
  · obtain ⟨c, t, hct⟩ : ∃ c t, natCh i.natAbs = c :: t := by
      cases hnc : natCh i.natAbs with
      | nil => exact absurd hnc (natCh_ne_nil _)
      | cons a b => exact ⟨a, b, rfl⟩
    have hdigc : isDig c = true := natCh_digits i.natAbs c (by rw [hct]; simp)
    have hcm : c ≠ '-' := by
      intro hc
      rw [hc] at hdigc
      exact absurd hdigc (by decide)
    have hspan : digSpan (natCh i.natAbs ++ rest) = (c :: t, rest) := by
      rw [digSpan_run _ (natCh_digits _) rest (numStop_digSpan rest hstop), hct]
    have hzero : ¬(c = '0' ∧ t ≠ []) := by
      by_cases hm10 : i.natAbs < 10
      · rw [natCh_small _ hm10] at hct
        simp only [List.cons.injEq] at hct
        rintro ⟨-, hne⟩
        exact hne hct.2.symm
      · rintro ⟨hc0, -⟩
        exact natCh_head_ne_zero i.natAbs (by omega) c t hct hc0
    have hcm2 : (c = '-') = False := by simp [hcm]
    rw [show intCh i ++ rest = c :: (t ++ rest) from by simp [intCh, hneg, hct]]
    simp only [parseIntTok, negSign, decide_eq_true_eq, hcm2, if_false]
    rw [show c :: (t ++ rest) = natCh i.natAbs ++ rest from by rw [hct]; simp]
    rw [hspan]
    dsimp only
    rw [if_neg hzero, if_neg (by simp [numStop_numExt rest hstop])]
    simp only [Option.some.injEq, Prod.mk.injEq, and_true]
    rw [← hct, digVal_natCh]
    simp only [Int.ofNat_eq_natCast]
    omega

/-! ## The string body, whitespace, and serialized heads -/

/-- Hex digits decode to their value. -/
theorem hexVal_hexDigit : ∀ d, d < 16 → hexVal (hexDigit d) = some d := by decide

/-- Dropping whitespace does not move on a non-whitespace head. -/
theorem dropWs_cons (c : Char) (t : List Char) (h : jWs c = false) :
    dropWs (c :: t) = c :: t := by
  rw [dropWs, if_neg (by simp [h])]

/-- A digit character is none of the JSON structural characters. -/
theorem isDig_ne (c : Char) (h : isDig c = true) :
    jWs c = false ∧ c ≠ ']' ∧ c ≠ rbrace ∧ c ≠ '-' := by
  refine ⟨?_, ?_, ?_, ?_⟩
  · simp only [jWs, decide_eq_false_iff_not]
    rintro (rfl | rfl | rfl | rfl) <;> simp [isDig] at h
  · intro rfl2
    rw [rfl2] at h
    exact absurd h (by decide)
  · intro rfl2
    rw [rfl2] at h
    exact absurd h (by decide)
  · intro rfl2
    rw [rfl2] at h
    exact absurd h (by decide)

/-- Parsing one escaped character undoes the escape. -/
theorem parseStrBody_esc (c : Char) (acc t : List Char) :
    parseStrBody acc (escCh c ++ t) = parseStrBody (c :: acc) t := by
  by_cases h1 : c = '"'
  · subst h1
    rw [show escCh '"' ++ t = '\\' :: '"' :: t from rfl]
    rw [parseStrBody, if_neg (by decide), if_pos rfl, parseEscSeq, if_neg (by decide)]
    rfl
  · by_cases h2 : c = '\\'
    · subst h2
      rw [show escCh '\\' ++ t = '\\' :: '\\' :: t from rfl]
      rw [parseStrBody, if_neg (by decide), if_pos rfl, parseEscSeq, if_neg (by decide)]
      rfl
    · by_cases h3 : c.toNat = 8
      · rw [show escCh c ++ t = '\\' :: 'b' :: t from by simp [escCh, h1, h2, h3]]
        rw [parseStrBody, if_neg (by decide), if_pos rfl, parseEscSeq, if_neg (by decide)]
        show parseStrBody (Char.ofNat 8 :: acc) t = parseStrBody (c :: acc) t
        rw [show Char.ofNat 8 = c from by rw [← h3, Char.ofNat_toNat]]
      · by_cases h4 : c.toNat = 9
        · rw [show escCh c ++ t = '\\' :: 't' :: t from by simp [escCh, h1, h2, h3, h4]]
          rw [parseStrBody, if_neg (by decide), if_pos rfl, parseEscSeq, if_neg (by decide)]
          show parseStrBody ('\t' :: acc) t = parseStrBody (c :: acc) t
          rw [show '\t' = c from by rw [show ('\t' : Char) = Char.ofNat 9 from rfl, ← h4,
            Char.ofNat_toNat]]
        · by_cases h5 : c.toNat = 10
          · rw [show escCh c ++ t = '\\' :: 'n' :: t from by simp [escCh, h1, h2, h3, h4, h5]]
            rw [parseStrBody, if_neg (by decide), if_pos rfl, parseEscSeq, if_neg (by decide)]
            show parseStrBody ('\n' :: acc) t = parseStrBody (c :: acc) t
            rw [show '\n' = c from by rw [show ('\n' : Char) = Char.ofNat 10 from rfl, ← h5,
              Char.ofNat_toNat]]
          · by_cases h6 : c.toNat = 12
            · rw [show escCh c ++ t = '\\' :: 'f' :: t from by simp [escCh, h1, h2, h3, h4, h5, h6]]
              rw [parseStrBody, if_neg (by decide), if_pos rfl, parseEscSeq, if_neg (by decide)]
              show parseStrBody (Char.ofNat 12 :: acc) t = parseStrBody (c :: acc) t
              rw [show Char.ofNat 12 = c from by rw [← h6, Char.ofNat_toNat]]
            · by_cases h7 : c.toNat = 13
              · rw [show escCh c ++ t = '\\' :: 'r' :: t from by
                  simp [escCh, h1, h2, h3, h4, h5, h6, h7]]
                rw [parseStrBody, if_neg (by decide), if_pos rfl, parseEscSeq,
                  if_neg (by decide)]
                show parseStrBody ('\r' :: acc) t = parseStrBody (c :: acc) t
                rw [show '\r' = c from by rw [show ('\r' : Char) = Char.ofNat 13 from rfl, ← h7,
                  Char.ofNat_toNat]]
              · by_cases h8 : c.toNat < 32
                · rw [show escCh c ++ t = '\\' :: 'u' :: '0' :: '0' ::
                    hexDigit (c.toNat / 16) :: hexDigit (c.toNat % 16) :: t from by
                    simp [escCh, h1, h2, h3, h4, h5, h6, h7, h8]]
                  rw [parseStrBody, if_neg (by decide), if_pos rfl, parseEscSeq, if_pos rfl]
                  rw [parseHexEsc]
                  rw [show hexVal '0' = some 0 from rfl,
                    hexVal_hexDigit _ (by omega), hexVal_hexDigit _ (by omega)]
                  simp only [Option.bind_eq_bind, Option.some_bind]
                  rw [if_pos (Or.inl (by omega))]
                  rw [show ((0 * 16 + 0) * 16 + c.toNat / 16) * 16 + c.toNat % 16 = c.toNat from
                    by omega]
                  rw [Char.ofNat_toNat]
                · rw [show escCh c ++ t = c :: t from by simp [escCh, h1, h2, h3, h4, h5, h6, h7, h8]]
                  rw [parseStrBody, if_neg h1, if_neg h2, if_neg h8]

/-- Parsing a rendered string body stops exactly at the closing quote. -/
theorem parseStrBody_run : ∀ (s acc t : List Char),
    parseStrBody acc (s.flatMap escCh ++ '"' :: t) = some (acc.reverse ++ s, t)
  | [], acc, t => by
      rw [show ([] : List Char).flatMap escCh ++ '"' :: t = '"' :: t from by simp]
      rw [parseStrBody, if_pos rfl]
      simp
  | c :: s, acc, t => by
      rw [show (c :: s).flatMap escCh ++ '"' :: t =
        escCh c ++ (s.flatMap escCh ++ '"' :: t) from by simp]
      rw [parseStrBody_esc, parseStrBody_run s (c :: acc) t]
      simp

/-- Every serialized value begins with a character that is not whitespace
and closes neither an array nor an object. -/
theorem serJHead (j : Json) :
    ∃ c t, serJ j = c :: t ∧ jWs c = false ∧ c ≠ ']' ∧ c ≠ rbrace := by
  cases j with
  | null => exact ⟨'n', lc "ull", by decide, by decide, by decide, by decide⟩
  | bool b =>
      cases b with
      | true => exact ⟨'t', lc "rue", by decide, by decide, by decide, by decide⟩
      | false => exact ⟨'f', lc "alse", by decide, by decide, by decide, by decide⟩
  | num i =>
      by_cases h : i < 0
      · exact ⟨'-', natCh i.natAbs, by simp [serJ, intCh, h], by decide, by decide, by decide⟩
      · obtain ⟨c, t, hct⟩ : ∃ c t, natCh i.natAbs = c :: t := by
          cases hnc : natCh i.natAbs with
          | nil => exact absurd hnc (natCh_ne_nil _)
          | cons a b => exact ⟨a, b, rfl⟩
        have hdig : isDig c = true := natCh_digits i.natAbs c (by rw [hct]; simp)
        obtain ⟨hws, hbr, hbc, -⟩ := isDig_ne c hdig
        exact ⟨c, t, by simp [serJ, intCh, h, hct], hws, hbr, hbc⟩
  | str s => exact ⟨'"', s.flatMap escCh ++ ['"'], rfl, by decide, by decide, by decide⟩
  | arr es => exact ⟨'[', serItems es ++ [']'], rfl, by decide, by decide, by decide⟩
  | obj ms => exact ⟨lbrace, serFields ms ++ [rbrace], rfl, by decide, by decide, by decide⟩

/-- A serialized value is nonempty. -/
theorem serJ_len_pos (j : Json) : 1 ≤ (serJ j).length := by
  obtain ⟨c, t, hct, -⟩ := serJHead j
  rw [hct]
  simp

/-! ## Parsing a serialized value returns it -/

mutual
/-- Parsing a serialized value before a delimiter returns the value. -/
theorem rt_val : ∀ (j : Json) (fuel : Nat) (rest : List Char),
    (serJ j).length < fuel → numStop rest →
    parseV fuel (serJ j ++ rest) = some (j, rest)
  | _, 0, _, hf, _ => absurd hf (by omega)
  | .null, fuel + 1, rest, _, _ => by
      rw [show serJ .null ++ rest = 'n' :: 'u' :: 'l' :: 'l' :: rest from rfl]
      rw [parseV, dropWs_cons _ _ (by decide)]
      rfl
  | .bool true, fuel + 1, rest, _, _ => by
      rw [show serJ (.bool true) ++ rest = 't' :: 'r' :: 'u' :: 'e' :: rest from rfl]
      rw [parseV, dropWs_cons _ _ (by decide)]
      rfl
  | .bool false, fuel + 1, rest, _, _ => by
      rw [show serJ (.bool false) ++ rest = 'f' :: 'a' :: 'l' :: 's' :: 'e' :: rest from rfl]
      rw [parseV, dropWs_cons _ _ (by decide)]
      rfl
  | .num i, fuel + 1, rest, _, hs => by
      by_cases hneg : i < 0
      · rw [show serJ (.num i) ++ rest = '-' :: (natCh i.natAbs ++ rest) from by
          simp [serJ, intCh, hneg]]
        rw [parseV, dropWs_cons _ _ (by decide)]
        dsimp only
        rw [if_pos (Or.inl rfl)]
        rw [show '-' :: (natCh i.natAbs ++ rest) = intCh i ++ rest from by
          simp [intCh, hneg]]
        rw [parseIntTok_intCh i rest hs]
        rfl
      · obtain ⟨c, t, hct⟩ : ∃ c t, natCh i.natAbs = c :: t := by
          cases hnc : natCh i.natAbs with
          | nil => exact absurd hnc (natCh_ne_nil _)
          | cons a b => exact ⟨a, b, rfl⟩
        have hdig : isDig c = true := natCh_digits i.natAbs c (by rw [hct]; simp)
        obtain ⟨hws, -, -, -⟩ := isDig_ne c hdig
        rw [show serJ (.num i) ++ rest = c :: (t ++ rest) from by
          simp [serJ, intCh, hneg, hct]]
        rw [parseV, dropWs_cons _ _ hws]
        dsimp only
        rw [if_pos (Or.inr hdig)]
        rw [show c :: (t ++ rest) = intCh i ++ rest from by simp [intCh, hneg, hct]]
        rw [parseIntTok_intCh i rest hs]
        rfl
  | .str s, fuel + 1, rest, _, _ => by
      rw [show serJ (.str s) ++ rest = '"' :: (s.flatMap escCh ++ '"' :: rest) from by
        simp [serJ, serStr]]
      rw [parseV, dropWs_cons _ _ (by decide)]
      dsimp only
      rw [if_neg (by decide), if_pos rfl]
      rw [parseStrBody_run s [] rest]
      simp
  | .arr [], fuel + 1, rest, _, _ => by
      rw [show serJ (.arr []) ++ rest = '[' :: ']' :: rest from by simp [serJ, serItems]]
      rw [parseV, dropWs_cons _ _ (by decide)]
      dsimp only
      rw [if_neg (by decide), if_neg (by decide), if_pos rfl]
      rw [dropWs_cons _ _ (by decide)]
      dsimp only
      rw [if_pos rfl]
  | .arr (e :: es), fuel + 1, rest, hf, _ => by
      obtain ⟨c, t, hct, hws, hbr, -⟩ := serJHead e
      obtain ⟨X, hXe⟩ : ∃ X, serItems (e :: es) = serJ e ++ X := by
        cases es with
        | nil => exact ⟨[], by simp [serItems]⟩
        | cons e2 es2 => exact ⟨',' :: serItems (e2 :: es2), rfl⟩
      rw [show serJ (.arr (e :: es)) ++ rest = '[' :: (serItems (e :: es) ++ ']' :: rest) from by
        simp [serJ]]
      rw [parseV, dropWs_cons _ _ (by decide)]
      dsimp only
      rw [if_neg (by decide), if_neg (by decide), if_pos rfl]
      rw [show serItems (e :: es) ++ ']' :: rest = c :: (t ++ (X ++ ']' :: rest)) from by
        rw [hXe, hct]; simp]
      rw [dropWs_cons _ _ hws]
      dsimp only
      rw [if_neg hbr]
      rw [show c :: (t ++ (X ++ ']' :: rest)) = serItems (e :: es) ++ ']' :: rest from by
        rw [hXe, hct]; simp]
      have hlen : (serItems (e :: es)).length + 1 < fuel := by
        have h2 : (serJ (.arr (e :: es))).length = (serItems (e :: es)).length + 2 := by
          simp [serJ]
        omega
      rw [rt_items e es fuel rest hlen]
      rfl
  | .obj [], fuel + 1, rest, _, _ => by
      rw [show serJ (.obj []) ++ rest = lbrace :: rbrace :: rest from by simp [serJ, serFields]]
      rw [parseV, dropWs_cons _ _ (by decide)]
      dsimp only
      rw [if_neg (by decide), if_neg (by decide), if_neg (by decide), if_pos rfl]
      rw [dropWs_cons _ _ (by decide)]
      dsimp only
      rw [if_pos rfl]
  | .obj ((k, v) :: ms), fuel + 1, rest, hf, _ => by
      obtain ⟨Y, hYe⟩ : ∃ Y, serFields ((k, v) :: ms) = serStr k ++ ':' :: (serJ v ++ Y) := by
        cases ms with
        | nil => exact ⟨[], by simp [serFields]⟩
        | cons m2 ms2 => exact ⟨',' :: serFields (m2 :: ms2), by
            obtain ⟨k2, v2⟩ := m2
            rw [show serFields ((k, v) :: (k2, v2) :: ms2) =
              serStr k ++ ':' :: serJ v ++ ',' :: serFields ((k2, v2) :: ms2) from rfl]
            simp⟩
      rw [show serJ (.obj ((k, v) :: ms)) ++ rest =
          lbrace :: (serFields ((k, v) :: ms) ++ rbrace :: rest) from by simp [serJ]]
      rw [parseV, dropWs_cons _ _ (by decide)]
      dsimp only
      rw [if_neg (by decide), if_neg (by decide), if_neg (by decide), if_pos rfl]
      rw [show serFields ((k, v) :: ms) ++ rbrace :: rest =
          '"' :: ((k.flatMap escCh ++ ['"']) ++ (':' :: (serJ v ++ Y) ++ rbrace :: rest)) from by
        rw [hYe]; simp [serStr]]
      rw [dropWs_cons _ _ (by decide)]
      dsimp only
      rw [if_neg (by decide)]
      rw [show ('"' : Char) ::
            ((k.flatMap escCh ++ ['"']) ++ (':' :: (serJ v ++ Y) ++ rbrace :: rest)) =
          serFields ((k, v) :: ms) ++ rbrace :: rest from by rw [hYe]; simp [serStr]]
      have hlen : (serFields ((k, v) :: ms)).length + 1 < fuel := by
        have h2 : (serJ (.obj ((k, v) :: ms))).length = (serFields ((k, v) :: ms)).length + 2 := by
          simp [serJ]
        omega
      rw [rt_fields k v ms fuel rest hlen]
      rfl

/-- Parsing serialized array elements up to the closing bracket returns them. -/
theorem rt_items : ∀ (e : Json) (es : List Json) (fuel : Nat) (rest : List Char),
    (serItems (e :: es)).length + 1 < fuel →
    parseItems fuel (serItems (e :: es) ++ ']' :: rest) = some (e :: es, rest)
  | _, _, 0, _, hf => absurd hf (by omega)
  | e, es, fuel + 1, rest, hf => by
      cases es with
      | nil =>
          rw [show serItems [e] ++ ']' :: rest = serJ e ++ ']' :: rest from by simp [serItems]]
          rw [parseItems]
          rw [rt_val e fuel (']' :: rest) (by simp [serItems] at hf; omega)
            ⟨by decide, by decide, by decide, by decide⟩]
          simp only [Option.bind_eq_bind, Option.some_bind]
          rw [dropWs_cons _ _ (by decide)]
          dsimp only
          rw [if_neg (by decide), if_pos rfl]
      | cons e2 es2 =>
          have h2 : (serItems (e :: e2 :: es2)).length =
              (serJ e).length + 1 + (serItems (e2 :: es2)).length := by
            rw [show serItems (e :: e2 :: es2) = serJ e ++ ',' :: serItems (e2 :: es2) from rfl]
            simp
            omega
          rw [show serItems (e :: e2 :: es2) ++ ']' :: rest =
              serJ e ++ (',' :: (serItems (e2 :: es2) ++ ']' :: rest)) from by
            rw [show serItems (e :: e2 :: es2) = serJ e ++ ',' :: serItems (e2 :: es2) from rfl]
            simp]
          rw [parseItems]
          rw [rt_val e fuel (',' :: (serItems (e2 :: es2) ++ ']' :: rest)) (by omega)
            ⟨by decide, by decide, by decide, by decide⟩]
          simp only [Option.bind_eq_bind, Option.some_bind]
          rw [dropWs_cons _ _ (by decide)]
          dsimp only
          rw [if_pos rfl]
          rw [rt_items e2 es2 fuel rest (by omega)]
          rfl

/-- Parsing serialized object members up to the closing brace returns them. -/
theorem rt_fields : ∀ (k : List Char) (v : Json) (ms : List (List Char × Json)) (fuel : Nat)
      (rest : List Char),
    (serFields ((k, v) :: ms)).length + 1 < fuel →
    parseFields fuel (serFields ((k, v) :: ms) ++ rbrace :: rest) = some ((k, v) :: ms, rest)
  | _, _, _, 0, _, hf => absurd hf (by omega)
  | k, v, ms, fuel + 1, rest, hf => by
      cases ms with
      | nil =>
          have h2 : (serFields [(k, v)]).length =
              (serStr k).length + 1 + (serJ v).length := by
            simp [serFields]
            omega
          rw [show serFields [(k, v)] ++ rbrace :: rest =
              '"' :: (k.flatMap escCh ++ '"' :: (':' :: (serJ v ++ rbrace :: rest))) from by
            simp [serFields, serStr]]
          rw [parseFields]
          rw [dropWs_cons _ _ (by decide)]
          dsimp only
          rw [if_pos rfl]
          rw [parseStrBody_run k [] (':' :: (serJ v ++ rbrace :: rest))]
          simp only [Option.bind_eq_bind, Option.some_bind, List.reverse_nil, List.nil_append]
          rw [dropWs_cons _ _ (by decide)]
          dsimp only
          rw [if_pos rfl]
          rw [rt_val v fuel (rbrace :: rest) (by omega)
            ⟨by decide, by decide, by decide, by decide⟩]
          simp only [Option.bind_eq_bind, Option.some_bind]
          rw [dropWs_cons _ _ (by decide)]
          dsimp only
          rw [if_neg (by decide), if_pos rfl]
      | cons m2 ms2 =>
          obtain ⟨k2, v2⟩ := m2
          have h2 : (serFields ((k, v) :: (k2, v2) :: ms2)).length =
              (serStr k).length + 1 + (serJ v).length + 1 +
                (serFields ((k2, v2) :: ms2)).length := by
            rw [show serFields ((k, v) :: (k2, v2) :: ms2) =
              serStr k ++ ':' :: serJ v ++ ',' :: serFields ((k2, v2) :: ms2) from rfl]
            simp
            omega
          rw [show serFields ((k, v) :: (k2, v2) :: ms2) ++ rbrace :: rest =
              '"' :: (k.flatMap escCh ++ '"' :: (':' :: (serJ v ++
                (',' :: (serFields ((k2, v2) :: ms2) ++ rbrace :: rest))))) from by
            rw [show serFields ((k, v) :: (k2, v2) :: ms2) =
              serStr k ++ ':' :: serJ v ++ ',' :: serFields ((k2, v2) :: ms2) from rfl]
            simp [serStr]]
          rw [parseFields]
          rw [dropWs_cons _ _ (by decide)]
          dsimp only
          rw [if_pos rfl]
          rw [parseStrBody_run k []
            (':' :: (serJ v ++ (',' :: (serFields ((k2, v2) :: ms2) ++ rbrace :: rest))))]
          simp only [Option.bind_eq_bind, Option.some_bind, List.reverse_nil, List.nil_append]
          rw [dropWs_cons _ _ (by decide)]
          dsimp only
          rw [if_pos rfl]
          rw [rt_val v fuel (',' :: (serFields ((k2, v2) :: ms2) ++ rbrace :: rest)) (by omega)
            ⟨by decide, by decide, by decide, by decide⟩]
          simp only [Option.bind_eq_bind, Option.some_bind]
          rw [dropWs_cons _ _ (by decide)]
          dsimp only
          rw [if_pos rfl]
          rw [rt_fields k2 v2 ms2 fuel rest (by omega)]
          rfl
end

/-- A serialized document parses back to the value it came from. -/
theorem parseDoc_serJ (j : Json) : parseDoc (serJ j) = some j := by
  have hv : parseV ((serJ j).length + 1) (serJ j) = some (j, []) := by
    have h := rt_val j ((serJ j).length + 1) [] (by omega) trivial
    rwa [List.append_nil] at h
  rw [parseDoc, hv]
  rfl

/-- C7: for every key that parses, the token generate_jwt returns carries the
payload as its middle dot-separated segment, and base64url-decoding that
segment, reading it back as UTF-8 text and JSON-parsing the text recovers
exactly the claims object `jwtPayload user now extra` — the supplied claims
plus the computed `expires` — with no loss. -/
theorem C7_payload_roundtrip :
    ∀ (apiKey : List Char) (user : User) (extra : List (List Char × Json)) (now : Nat)
      (uuidText : List Char) (keyBytes : List Nat),
      parseApiKey apiKey = .ok (uuidText, keyBytes) →
      (∃ sig, generateJwt apiKey user extra now =
        .ok (headerSeg now uuidText ++ '.' :: payloadSeg user now extra ++ '.' :: sig)) ∧
      ((decB64 (payloadSeg user now extra)).bind utf8Decode).bind parseDoc =
        some (.obj (jwtPayload user now extra)) := by
  intro apiKey user extra now uuidText keyBytes h
  constructor
  · refine ⟨encB64 (hmacSha256 (hmacSha256 keyBytes (utf8Encode uuidText))
      (utf8Encode (headerSeg now uuidText ++ '.' :: payloadSeg user now extra))), ?_⟩
    unfold generateJwt
    rw [h]
  · rw [show payloadSeg user now extra =
      encB64 (utf8Encode (serJ (.obj (jwtPayload user now extra)))) from rfl]
    rw [decB64_encB64 _ (utf8Encode_lt _)]
    simp only [Option.bind_eq_bind, Option.some_bind]
    rw [utf8Decode_encode]
    simp only [Option.some_bind]
    exact parseDoc_serJ _

/-- C7 witness: the round-trip theorem instantiated at a concrete key whose
parse is discharged by evaluation. -/
theorem C7_payload_roundtrip_witness :
    parseApiKey (lc "VRTX.AAAAAAAAAAAAAAAAAAAAAA.k7") =
      .ok (uuidStr (List.replicate 16 0), utf8Encode (lc "k7")) ∧
    ((∃ sig, generateJwt (lc "VRTX.AAAAAAAAAAAAAAAAAAAAAA.k7")
        ⟨lc "u7", lc "e7", none, none, none, none⟩ [] 9 =
      .ok (headerSeg 9 (uuidStr (List.replicate 16 0)) ++ '.' ::
        payloadSeg ⟨lc "u7", lc "e7", none, none, none, none⟩ 9 [] ++ '.' :: sig)) ∧
      ((decB64 (payloadSeg ⟨lc "u7", lc "e7", none, none, none, none⟩ 9 [])).bind
          utf8Decode).bind parseDoc =
        some (.obj (jwtPayload ⟨lc "u7", lc "e7", none, none, none, none⟩ 9 []))) :=
  ⟨rfl, C7_payload_roundtrip _ _ _ _ _ _ rfl⟩
